import Mathlib

/-
Verification of the Schulmanager Online portal client
(custom_components/schulmanager), formalised as a shallow embedding in
Lean 4.  Python strings are modelled as Lean `String`/`List Char`
restricted to the ASCII behaviour the data actually exercises, Python
floats are modelled as exact rationals (plus explicit infinity/NaN
constructors where float("inf")/float("nan") can arise), and Python
dicts keyed by strings are modelled as ordered association lists with
last-write-wins update, mirroring insertion-ordered dicts.
-/

namespace Schulmanager

/-! ## Basic character and string helpers -/

/-- ASCII whitespace (space, tab, newline, carriage return, vertical
tab, form feed), as stripped by Python str.strip() and float(); stated
on code points.  The Unicode-only whitespace code points are not
modelled; no input in this development contains them. -/
def isPyWs (c : Char) : Bool :=
  c.toNat = 32 || c.toNat = 9 || c.toNat = 10 || c.toNat = 13 ||
  c.toNat = 11 || c.toNat = 12

/-- Decimal digit test `0-9`, stated on code points. -/
def isDig (c : Char) : Bool := 48 ≤ c.toNat && c.toNat ≤ 57

/-- Numeric value of a decimal digit character. -/
def digVal (c : Char) : ℕ := c.toNat - 48

/-- Strip ASCII whitespace from both ends of a character list. -/
def stripWs (cs : List Char) : List Char :=
  ((cs.dropWhile isPyWs).reverse.dropWhile isPyWs).reverse

/-- Value of a digit list read as a base-10 natural number. -/
def digitsToNat (ds : List Char) : ℕ :=
  ds.foldl (fun acc d => 10 * acc + digVal d) 0

/-! ## Python float() parsing

`float(s)` on a string: optional surrounding whitespace, optional
sign, then either a decimal literal (digits with optional fraction and
exponent) or one of the special literals inf/infinity/nan
(case-insensitive).  The result is a finite value, an infinity, or
NaN. -/

/-- Result domain of Python float(): finite values are exact rationals;
IEEE rounding of decimal literals to binary is abstracted away. -/
inductive PyFloat where
  | fin (q : ℚ)
  | inf
  | neginf
  | nan
  deriving DecidableEq, Repr

/-- Consume a maximal run of decimal digits, returning the digits and
the remaining input.  PEP 515 underscore separators inside numeric
literals are not modelled: no grade string handled by the claims
contains them, and a value written with separators would in any case
denote at least 10 and so fall outside the 1.0–6.0 averaging range. -/
def takeDigits (cs : List Char) : List Char × List Char :=
  (cs.takeWhile isDig, cs.dropWhile isDig)

theorem takeDigits_all_digits (cs : List Char) (h : cs.all isDig) :
    takeDigits cs = (cs, []) := by
  unfold takeDigits
  rw [List.takeWhile_eq_self_iff.mpr, List.dropWhile_eq_nil_iff.mpr] <;>
    simp_all [List.all_eq_true]

/-- Parse the mantissa-and-exponent part of a float literal (after the
optional sign has been removed).  Returns the exact rational value. -/
def parseDecimalCore (cs : List Char) : Option ℚ :=
  let ipart := (takeDigits cs).1
  let r1 := (takeDigits cs).2
  let fpart := if r1.head? = some '.' then (takeDigits (r1.drop 1)).1 else []
  let r2 := if r1.head? = some '.' then (takeDigits (r1.drop 1)).2 else r1
  if ipart.isEmpty && fpart.isEmpty then none
  else
    let mant : ℚ := (digitsToNat ipart : ℚ) +
      (digitsToNat fpart : ℚ) / (10 : ℚ) ^ fpart.length
    if r2.isEmpty then some mant
    else if r2.head? = some 'e' || r2.head? = some 'E' then
      let rest := r2.drop 1
      let esign : ℤ :=
        if rest.head? = some '-' then -1 else 1
      let rest2 :=
        if rest.head? = some '+' || rest.head? = some '-' then rest.drop 1
        else rest
      let eds := (takeDigits rest2).1
      let r3 := (takeDigits rest2).2
      if eds.isEmpty || !r3.isEmpty then none
      else some (mant * (10 : ℚ) ^ (esign * (digitsToNat eds : ℤ)))
    else none

/-- Case-insensitive comparison of a character list against an ASCII
lowercase pattern. -/
def matchesCI (cs : List Char) (pat : List Char) : Bool :=
  decide (cs.map Char.toLower = pat)

/-- Python float() applied to an arbitrary string. -/
def pyFloat (s : String) : Option PyFloat :=
  let cs := stripWs s.data
  let neg := cs.head? = some '-'
  let body :=
    if cs.head? = some '+' || cs.head? = some '-' then cs.drop 1 else cs
  if matchesCI body "inf".data || matchesCI body "infinity".data then
    some (if neg then PyFloat.neginf else PyFloat.inf)
  else if matchesCI body "nan".data then
    some PyFloat.nan
  else
    match parseDecimalCore body with
    | some q => some (PyFloat.fin (if neg then -q else q))
    | none => none

/-! ## The German grade parser

Shallow embedding of SchulmanagerClient._parse_german_grade
(api_client.py).  The Python argument is `str | float` and may also be
None at runtime; `GradeValue` covers these cases.  Numeric inputs are
modelled as `PyFloat` values. -/

/-- Possible runtime values of the grade field handed to the parser. -/
inductive GradeValue where
  | pynone
  | num (x : PyFloat)
  | str (s : String)
  deriving DecidableEq, Repr

/-- Python truthiness of a `GradeValue` (None and "" are falsy; 0.0 is
falsy; NaN and infinities are truthy). -/
def gradeTruthy : GradeValue → Bool
  | .pynone => false
  | .num (.fin q) => q ≠ 0
  | .num _ => true
  | .str s => !s.data.isEmpty

/-- Python `x != 0` for a `GradeValue` (None and strings are never
equal to 0; NaN != 0 is True). -/
def gradeNeZero : GradeValue → Bool
  | .num (.fin q) => q ≠ 0
  | _ => true

/-- Characters of the first tilde-separated field after the first `~`,
i.e. Python s.split("~")[1]. -/
def afterFirstTilde (cs : List Char) : List Char :=
  ((cs.dropWhile (· ≠ '~')).drop 1).takeWhile (· ≠ '~')

/-- SchulmanagerClient._parse_german_grade: returns the numeric value
of a German grade, or none when unparseable. -/
def parse_german_grade (gv : GradeValue) : Option PyFloat :=
  if !gradeTruthy gv && gradeNeZero gv then none
  else
    match gv with
    | .pynone => none
    | .num x => some x
    | .str s =>
      let g := stripWs s.data
      if g.isEmpty then none
      else if g.contains '~' then
        pyFloat (String.mk (afterFirstTilde g))
      else if g.getLast? = some '+' || g.getLast? = some '-' then
        pyFloat (String.mk (g.dropLast))
      else
        pyFloat (String.mk g)

/-! ## Spec-side grade patterns

The three regular expressions quoted by the specification for valid
German grade strings, written out as shape predicates, together with
the numeric value such a string denotes.  These definitions follow the
wording of the spec (they are needed to state the claim), not the
source. -/

/-- Shape of the spec regex `^\d(\.\d+)?$`. -/
def specPatPlain : List Char → Bool
  | [] => false
  | d :: rest =>
    isDig d &&
      (match rest with
       | [] => true
       | dot :: ds => dot = '.' && !ds.isEmpty && ds.all isDig)

/-- Shape of the spec regex `^\d[+-]$`. -/
def specPatSigned : List Char → Bool
  | [d, c] => isDig d && (c = '+' || c = '-')
  | _ => false

/-- Shape of the spec regex `^\d~\d[+-]?$`. -/
def specPatTilde : List Char → Bool
  | [d, t, e] => isDig d && t = '~' && isDig e
  | [d, t, e, c] => isDig d && t = '~' && isDig e && (c = '+' || c = '-')
  | _ => false

/-- Exact decimal value denoted by a string of shape `^\d(\.\d+)?$`. -/
def specPlainVal : List Char → ℚ
  | [] => 0
  | [d] => (digVal d : ℚ)
  | d :: _ :: ds => (digVal d : ℚ) + (digitsToNat ds : ℚ) / (10 : ℚ) ^ ds.length

/-- ASCII letter, the "letters" of the claim's malformed-input
clause. -/
def specLetterChar (c : Char) : Bool :=
  (65 ≤ c.toNat && c.toNat ≤ 90) || (97 ≤ c.toNat && c.toNat ≤ 122)

/-! ## Grade averaging

Shallow embedding of SchulmanagerClient._calculate_subject_average and
of the averaging tail of SchulmanagerClient._process_grades_data.
Grade categories are modelled as an insertion-ordered list of
(category name, stored grade values); the only field of a stored grade
entry that the averaging code reads is "value", which holds either the
normalized numeric value or the original raw string. -/

/-- Round-half-to-even to an integer (the rounding used by Python's
round builtin; binary floating-point representation error is
abstracted away by computing on exact rationals). -/
def rhe (x : ℚ) : ℤ :=
  let f := ⌊x⌋
  let r := x - f
  if r < 1/2 then f
  else if r > 1/2 then f + 1
  else if f % 2 = 0 then f else f + 1

/-- Python round(x, 2). -/
def round2 (x : ℚ) : ℚ := (rhe (100 * x) : ℚ) / 100

/-- Inner body of the collection loop of _calculate_subject_average:
parse the stored value and keep it iff 1.0 <= value <= 6.0 (NaN and
infinities fail the comparison, as in Python). -/
def validGrade (g : GradeValue) : Option ℚ :=
  match parse_german_grade g with
  | some (.fin q) => if 1 ≤ q ∧ q ≤ 6 then some q else none
  | _ => none

/-- SchulmanagerClient._calculate_subject_average, with the loops over
categories and grades written as folds in iteration order. -/
def calculate_subject_average (cats : List (String × List GradeValue)) :
    Option ℚ :=
  if cats.isEmpty then none
  else
    let allGrades :=
      cats.foldl (fun acc p =>
        p.2.foldl (fun a g =>
          match validGrade g with
          | some q => a ++ [q]
          | none => a) acc) []
    if allGrades.isEmpty then none
    else some (round2 (allGrades.sum / allGrades.length))

/-- Averaging tail of _process_grades_data: per-subject averages in
subject iteration order, the list of non-None averages, the overall
average, and the two counters of the payload. -/
def process_grades_averages (subjects : List (List (String × List GradeValue))) :
    List (Option ℚ) × Option ℚ × ℕ × ℕ :=
  let avgs := subjects.map calculate_subject_average
  let allSubjectAverages := avgs.filterMap id
  let overall :=
    if allSubjectAverages.isEmpty then none
    else some (round2 (allSubjectAverages.sum / allSubjectAverages.length))
  (avgs, overall, subjects.length, allSubjectAverages.length)

/-- Spec-side description: the parsed numeric grade values lying in
[1.0, 6.0], across all categories in order. -/
def specValidValues (cats : List (String × List GradeValue)) : List ℚ :=
  (cats.flatMap Prod.snd).filterMap validGrade

/-- Spec-side unweighted arithmetic mean. -/
def specMean (l : List ℚ) : ℚ := l.sum / l.length

/-! ## The generic RPC call wrapper

Shallow embedding of the response handling of
SchulmanagerClient._api_call (api_client.py).  The JSON response body
is abstracted to the parts the wrapper inspects: an optional results
array whose entries are either objects (with optional "status" and
"data" members) or non-objects; the payload type of a "data" member is
a type parameter. -/

/-- Value found under the per-request "status" key of a result entry
(anything other than the number 200 is treated as a failure). -/
inductive SubStatus where
  | num (n : ℤ)
  | nonNum
  deriving DecidableEq, Repr

/-- One entry of the results array. -/
inductive RpcEntry (α : Type) where
  | dict (status : Option SubStatus) (dat : Option α)
  | nonDict
  deriving DecidableEq, Repr

/-- Parsed response body.  `results = none` covers both a missing
"results" key and a body that failed JSON decoding (the code
substitutes a raw-text dict in that case); `some []` is an explicitly
empty array — Python's `or []` collapses all of these to `[]`. -/
structure RpcBody (α : Type) where
  results : Option (List (RpcEntry α))
  deriving DecidableEq, Repr

/-- Possible outcomes of the wrapper: a raised error on non-200 HTTP
status, the empty-list result, the "data" member of the first entry,
or the entire parsed body. -/
inductive CallOutcome (α : Type) where
  | httpError (status : ℕ)
  | emptyResult
  | dataOf (d : α)
  | wholeBody (b : RpcBody α)
  deriving DecidableEq, Repr

/-- Response handling of SchulmanagerClient._api_call. -/
def api_call_handle {α : Type} (status : ℕ) (b : RpcBody α) : CallOutcome α :=
  if status ≠ 200 then CallOutcome.httpError status
  else
    match b.results.getD [] with
    | [] => CallOutcome.emptyResult
    | r :: _ =>
      match r with
      | .nonDict => CallOutcome.wholeBody b
      | .dict st d =>
        match st with
        | some s =>
          if s ≠ SubStatus.num 200 then CallOutcome.emptyResult
          else
            match d with
            | some v => CallOutcome.dataOf v
            | none => CallOutcome.wholeBody b
        | none =>
          match d with
          | some v => CallOutcome.dataOf v
          | none => CallOutcome.wholeBody b

/-! ## Cooldown manager

Shallow embedding of utils.get_validated_refresh_cooldown and
utils.CooldownManager.  Instants are rational seconds supplied by an
injectable clock; datetime subtraction and timedelta comparison become
rational arithmetic. -/

/-- Mutable state of a CooldownManager instance. -/
structure CooldownState where
  lastManualRefresh : Option ℚ
  deriving DecidableEq, Repr

/-- utils.get_validated_refresh_cooldown: the configured cooldown in
minutes (absent key falls back to the default 5) clamped into the
fixed [5, 30] range. -/
def get_validated_refresh_cooldown (cfg : Option ℤ) : ℤ :=
  max 5 (min 30 (cfg.getD 5))

/-- CooldownManager.can_refresh at time `now`. -/
def can_refresh (cfg : Option ℤ) (now : ℚ) (st : CooldownState) : Bool :=
  match st.lastManualRefresh with
  | none => true
  | some t =>
    decide (now - t ≥ 60 * (get_validated_refresh_cooldown cfg : ℚ))

/-- CooldownManager.get_remaining_cooldown at time `now`.  Python's
`int(remaining.total_seconds())` truncates toward zero; the value is
positive in the branch where it is taken, so truncation is the
floor. -/
def get_remaining_cooldown (cfg : Option ℤ) (now : ℚ) (st : CooldownState) : ℤ :=
  match st.lastManualRefresh with
  | none => 0
  | some t =>
    let per : ℚ := 60 * (get_validated_refresh_cooldown cfg : ℚ)
    let elapsed := now - t
    if elapsed ≥ per then 0 else ⌊per - elapsed⌋

/-- CooldownManager.record_refresh at time `now`. -/
def record_refresh (now : ℚ) (_st : CooldownState) : CooldownState :=
  { lastManualRefresh := some now }

/-! ## Schedule fetch date window

Shallow embedding of the clamping and date arithmetic of
SchulmanagerClient._fetch_schedule_optimized.  Dates are proleptic
Gregorian ordinals as used by Python's date.toordinal(); ordinal 1
(0001-01-01) is a Monday, so date.weekday() is `(ordinal + 6) % 7`. -/

/-- Python date.weekday() on an ordinal (Monday = 0). -/
def pyWeekday (ordinal : ℤ) : ℤ := (ordinal + 6) % 7

/-- Week-count clamping of _fetch_schedule_optimized:
`weeks = max(weeks, 1); weeks = min(weeks, 3)`. -/
def clamp_weeks (weeks : ℤ) : ℤ := min (max weeks 1) 3

/-- Date window requested by _fetch_schedule_optimized: Monday of the
current week through `7 * weeks - 1` days later. -/
def schedule_window (today : ℤ) (weeks : ℤ) : ℤ × ℤ :=
  let startOfWeek := today - pyWeekday today
  let w := clamp_weeks weeks
  (startOfWeek, startOfWeek + (7 * w - 1))

/-! ## Client state and the auth-cache clear operation

Shallow embedding of the mutable fields of SchulmanagerClient and of
clear_auth_cache.  Field payload types irrelevant to the frame claim
are type parameters. -/

/-- One student record of the roster. -/
structure Student where
  id : String
  classId : Option ℤ
  name : String
  deriving DecidableEq, Repr

/-- Mutable fields of a SchulmanagerClient instance. -/
structure ClientState (σ δ μ : Type) where
  token : Option String
  bundleVersion : Option String
  students : List Student
  subjectsCache : σ
  institutionId : Option ℤ
  data : Option δ
  multipleAccounts : Option μ
  deriving Repr

/-- SchulmanagerClient.clear_auth_cache. -/
def clear_auth_cache {σ δ μ : Type} (st : ClientState σ δ μ) :
    ClientState σ δ μ :=
  { st with token := none, bundleVersion := none }

/-! ## The full update cycle

Shallow embedding of SchulmanagerClient.async_update.  Each per-student
per-feature fetch is an independent awaited call whose outcome (value
or raised exception) is supplied as an oracle keyed by student id; the
snapshot dicts are insertion-ordered association lists with
last-write-wins assignment. -/

/-- Enabled-feature flags (enabled_features.get(name, True) defaults
are applied by the caller of this model). -/
structure Enabled where
  homework : Bool
  schedule : Bool
  exams : Bool
  grades : Bool
  deriving DecidableEq, Repr

/-- Value stored in result["schedule"][sid]: either a fetched payload
or the literal empty payload the except-branch and the disabled branch
assign. -/
inductive SchedEntry (β : Type) where
  | fetched (b : β)
  | emptyPayload
  deriving DecidableEq, Repr

/-- Value stored in result["grades"][sid]: either a fetched payload or
the literal `{"subjects": {}}` the except-branch and the disabled
branch assign. -/
inductive GradesEntry (δ : Type) where
  | fetched (d : δ)
  | emptySubjects
  deriving DecidableEq, Repr

/-- Outcomes of the four per-feature fetches, keyed by student id; an
`Except.error` models a raised exception. -/
structure FetchOutcomes (α β γ δ : Type) where
  homework : String → Except Unit (List α)
  schedule : String → Except Unit β
  exams : String → Except Unit (List γ)
  grades : String → Except Unit δ

/-- Dict assignment d[k] = v on an insertion-ordered association
list: overwrite in place if the key exists, else append. -/
def dictSet {v : Type} : List (String × v) → String → v → List (String × v)
  | [], k, x => [(k, x)]
  | p :: rest, k, x =>
    if p.1 = k then (k, x) :: rest else p :: dictSet rest k x

/-- Dict lookup d.get(k). -/
def dictGet {v : Type} : List (String × v) → String → Option v
  | [], _ => none
  | p :: rest, k => if p.1 = k then some p.2 else dictGet rest k

/-- The structured snapshot returned by async_update. -/
structure Snapshot (α β γ δ : Type) where
  students : List Student
  homework : List (String × List α)
  schedule : List (String × SchedEntry β)
  exams : List (String × List γ)
  grades : List (String × GradesEntry δ)

/-- Value async_update stores for homework of student `sid`. -/
def homeworkEntry {α β γ δ : Type} (en : Enabled) (o : FetchOutcomes α β γ δ)
    (sid : String) : List α :=
  if en.homework then
    match o.homework sid with
    | .ok v => v
    | .error _ => []
  else []

/-- Value async_update stores for the schedule of student `sid`. -/
def scheduleEntry {α β γ δ : Type} (en : Enabled) (o : FetchOutcomes α β γ δ)
    (sid : String) : SchedEntry β :=
  if en.schedule then
    match o.schedule sid with
    | .ok v => SchedEntry.fetched v
    | .error _ => SchedEntry.emptyPayload
  else SchedEntry.emptyPayload

/-- Value async_update stores for the exams of student `sid`. -/
def examsEntry {α β γ δ : Type} (en : Enabled) (o : FetchOutcomes α β γ δ)
    (sid : String) : List γ :=
  if en.exams then
    match o.exams sid with
    | .ok v => v
    | .error _ => []
  else []

/-- Value async_update stores for the grades of student `sid`. -/
def gradesEntry {α β γ δ : Type} (en : Enabled) (o : FetchOutcomes α β γ δ)
    (sid : String) : GradesEntry δ :=
  if en.grades then
    match o.grades sid with
    | .ok v => GradesEntry.fetched v
    | .error _ => GradesEntry.emptySubjects
  else GradesEntry.emptySubjects

/-- Loop body of async_update for one student: the four per-feature
assignments, each from its own try/except-wrapped fetch. -/
def updateStep {α β γ δ : Type} (en : Enabled) (o : FetchOutcomes α β γ δ)
    (acc : Snapshot α β γ δ) (st : Student) : Snapshot α β γ δ :=
  { acc with
    homework := dictSet acc.homework st.id (homeworkEntry en o st.id)
    schedule := dictSet acc.schedule st.id (scheduleEntry en o st.id)
    exams := dictSet acc.exams st.id (examsEntry en o st.id)
    grades := dictSet acc.grades st.id (gradesEntry en o st.id) }

/-- SchulmanagerClient.async_update: the per-student loop, with each
feature fetch wrapped in its own try/except assigning the
empty/default value on failure. -/
def async_update {α β γ δ : Type} (students : List Student) (en : Enabled)
    (o : FetchOutcomes α β γ δ) : Snapshot α β γ δ :=
  students.foldl (updateStep en o)
    { students := students, homework := [], schedule := [], exams := [],
      grades := [] }

/-! ## Bundle-version discovery

Shallow embedding of the script-scanning part of
SchulmanagerClient._discover_bundle_version.  The three regex
strategies are modelled as explicit leftmost-match scanners; each is
deterministic because every quantifier in the patterns either has a
fixed length, is a greedy character-class run followed by a character
outside the class, or is the lazy gap of the proximity pattern
(modelled by trying the shortest gap first).  Python's `re` matches
Unicode word and space characters beyond ASCII; the ASCII subsets are
modelled, which covers the minified-JavaScript inputs the scanner
consumes.  A script whose fetch raised is a `none` entry of the
scripts list (the except-branch logs and continues). -/

/-- Regex \s, ASCII subset. -/
def isReWs (c : Char) : Bool := isPyWs c

/-- Hex digit as matched by `[a-f0-9]` under re.IGNORECASE. -/
def isHexCI (c : Char) : Bool :=
  isDig c || ('a' ≤ c && c ≤ 'f') || ('A' ≤ c && c ≤ 'F')

/-- Lowercase hex digit as matched by `[a-f0-9]` without IGNORECASE. -/
def isHexLower (c : Char) : Bool := isDig c || ('a' ≤ c && c ≤ 'f')

/-- Quote character class `["\']`. -/
def isQuote (c : Char) : Bool := c = '"' || c = '\''

/-- Regex \w, ASCII subset. -/
def isWordChar (c : Char) : Bool := c.isAlphanum || c = '_'

/-- First character class `[A-Za-z_$]` of the identifier capture. -/
def isIdentStart (c : Char) : Bool := c.isAlpha || c = '_' || c = '$'

/-- Continuation class `[\w$]` of the identifier capture. -/
def isIdentChar (c : Char) : Bool := isWordChar c || c = '$'

/-- Match a literal pattern case-insensitively at the current
position, returning the rest of the input. -/
def stripPrefixCI (pat : List Char) (cs : List Char) : Option (List Char) :=
  if (cs.take pat.length).map Char.toLower == pat then
    some (cs.drop pat.length)
  else none

/-- Match a literal pattern exactly at the current position. -/
def stripPrefixEx (pat : List Char) (cs : List Char) : Option (List Char) :=
  if cs.take pat.length == pat then some (cs.drop pat.length) else none

/-- Match `(class){10}` at the current position, returning the capture
and the rest. -/
def grabHex10 (hex : Char → Bool) (cs : List Char) :
    Option (List Char × List Char) :=
  let cap := cs.take 10
  if cap.length = 10 && cap.all hex then some (cap, cs.drop 10) else none

/-- Match the shared subpattern `["\'](class{10})["\']` at the current
position, returning the capture. -/
def quotedHex10 (hex : Char → Bool) : List Char → Option (List Char)
  | [] => none
  | q :: r =>
    if isQuote q then
      match grabHex10 hex r with
      | some (cap, r2) =>
        match r2 with
        | q2 :: _ => if isQuote q2 then some cap else none
        | [] => none
      | none => none
    else none

/-- Leftmost-match search: try the matcher at every start position,
earliest first (re.search semantics). -/
def searchSuffixes {ρ : Type} (f : List Char → Option ρ) :
    List Char → Option ρ
  | [] => f []
  | c :: rest =>
    match f (c :: rest) with
    | some r => some r
    | none => searchSuffixes f rest

/-- Leftmost-match search threading the previous character, for
patterns with a word-boundary anchor. -/
def searchWithPrev {ρ : Type} (f : Option Char → List Char → Option ρ)
    (prev : Option Char) : List Char → Option ρ
  | [] => f prev []
  | c :: rest =>
    match f prev (c :: rest) with
    | some r => some r
    | none => searchWithPrev f (some c) rest

/-- Strategy a, `bundleVersion\s*:\s*["\']([a-f0-9]{10})["\']` with
IGNORECASE, matched at the current position. -/
def litAt (cs : List Char) : Option (List Char) :=
  match stripPrefixCI "bundleversion".data cs with
  | none => none
  | some r0 =>
    match r0.dropWhile isReWs with
    | ':' :: r1 => quotedHex10 isHexCI (r1.dropWhile isReWs)
    | _ => none

/-- Strategy b first pass, `bundleVersion\s*:\s*([A-Za-z_$][\w$]*)`
(case-sensitive), matched at the current position; captures the
identifier. -/
def identAt (cs : List Char) : Option (List Char) :=
  match stripPrefixEx "bundleVersion".data cs with
  | none => none
  | some r0 =>
    match r0.dropWhile isReWs with
    | ':' :: r1 =>
      match r1.dropWhile isReWs with
      | c :: r2 =>
        if isIdentStart c then some (c :: r2.takeWhile isIdentChar) else none
      | [] => none
    | _ => none

/-- Strategy b second pass,
`\b(?:const|let|var)\s+IDENT\s*=\s*["\']([a-f0-9]{10})["\']`, matched
at the current position given the previous character. -/
def defAt (ident : List Char) (prev : Option Char) (cs : List Char) :
    Option (List Char) :=
  if (prev.map isWordChar).getD false then none
  else
    match
      (match stripPrefixEx "const".data cs with
       | some r => some r
       | none =>
         match stripPrefixEx "let".data cs with
         | some r => some r
         | none => stripPrefixEx "var".data cs) with
    | none => none
    | some r0 =>
      match r0 with
      | w :: r1 =>
        if isReWs w then
          match stripPrefixEx ident (r1.dropWhile isReWs) with
          | none => none
          | some r3 =>
            match r3.dropWhile isReWs with
            | '=' :: r4 => quotedHex10 isHexLower (r4.dropWhile isReWs)
            | _ => none
        else none
      | [] => none

/-- Strategy c,
`bundleVersion[\s\S]{0,120}?["\']([a-f0-9]{10})["\']` with IGNORECASE,
matched at the current position: the lazy gap takes the smallest
length in 0..120 for which the quoted hex literal follows. -/
def nearAt (cs : List Char) : Option (List Char) :=
  match stripPrefixCI "bundleversion".data cs with
  | none => none
  | some r0 =>
    (List.range 121).findSome? fun k => quotedHex10 isHexCI (r0.drop k)

/-- Strategy a over a whole script. -/
def literalSearch (js : List Char) : Option (List Char) :=
  searchSuffixes litAt js

/-- Strategy b over a whole script: first matching identifier, then
its const/let/var definition elsewhere in the same script. -/
def identStrategy (js : List Char) : Option (List Char) :=
  match searchSuffixes identAt js with
  | some ident => searchWithPrev (defAt ident) none js
  | none => none

/-- Strategy c over a whole script. -/
def nearSearch (js : List Char) : Option (List Char) :=
  searchSuffixes nearAt js

/-- Per-script scan of _discover_bundle_version: the three strategies
in fixed order, stopping at the first hit. -/
def scanScript (js : String) : Option String :=
  match literalSearch js.data with
  | some v => some (String.mk v)
  | none =>
    match identStrategy js.data with
    | some v => some (String.mk v)
    | none => (nearSearch js.data).map String.mk

/-- Script-scanning loop of _discover_bundle_version over the fetched
candidate scripts in discovery order (`none` = the fetch or decode of
that script raised and the loop continued). -/
def discover_bundle_version (scripts : List (Option String)) : Option String :=
  scripts.findSome? (fun o => o.bind scanScript)

/-! ## Calendar event building with de-duplication

Shallow embedding of ScheduleCalendar._iter_events_for_day,
ScheduleCalendar._lesson_texts and the original_info helper
(calendar.py).  Upstream lesson dicts are modelled with Option fields;
`none` stands for an absent key or a falsy ({} / "" / []) value,
matching how every `x.get(...) or y` chain in the source treats them.
Event start/end times are computed independently per event by
_lesson_times and never influence grouping, choice of primary lesson,
or descriptions; the event model therefore carries the chosen primary
lesson itself in place of the derived times. -/

/-- Subject reference: abbreviation / name members. -/
structure SubjectRef where
  abbreviation : Option String
  name : Option String
  deriving DecidableEq, Repr

/-- Teacher reference. -/
structure TeacherRef where
  abbreviation : Option String
  firstname : Option String
  lastname : Option String
  deriving DecidableEq, Repr

/-- Room reference. -/
structure RoomRef where
  name : Option String
  deriving DecidableEq, Repr

/-- Subject/teacher/room triple of an actualLesson or an entry of
originalLessons. -/
structure LessonCore where
  subject : Option SubjectRef
  teachers : List TeacherRef
  room : Option RoomRef
  deriving DecidableEq, Repr

/-- One upstream lesson dict, restricted to the keys calendar.py
reads.  classHourNumber is `str(classHour["number"])` when the number
is present, none otherwise. -/
structure CalLesson where
  type : Option String
  classHourNumber : Option String
  actualLesson : Option LessonCore
  subject : Option SubjectRef
  teachers : List TeacherRef
  room : Option RoomRef
  substitutionText : Option String
  comment : Option String
  originalLessons : List LessonCore
  deriving DecidableEq, Repr

/-- Truthy string extraction: `opt.get(...) or ""`-style collapse of
an optional, possibly empty string. -/
def strOrEmpty (s : Option String) : String := s.getD ""

/-- Python `a or b` on two optional strings followed by `or ""`. -/
def firstTruthy (a b : Option String) : String :=
  match a with
  | some s => if s.isEmpty then strOrEmpty b else s
  | none => strOrEmpty b

/-- Lesson type with the Python default, lesson.get("type", ...) —
_iter_events_for_day uses lesson.get("type") and compares with
"cancelledLesson", _lesson_texts defaults to "regularLesson". -/
def lessonTypeRaw (l : CalLesson) : Option String := l.type

/-- Test used by the grouping code: lesson.get("type") == "cancelledLesson". -/
def isCancelledLesson (l : CalLesson) : Bool :=
  l.type == some "cancelledLesson"

/-- The original_info helper of _iter_events_for_day: format the first
entry of the cancelled lesson's originalLessons. -/
def original_info (canc : CalLesson) : String :=
  match canc.originalLessons with
  | [] => ""
  | o :: _ =>
    let subj := firstTruthy (o.subject.bind (·.abbreviation))
      (o.subject.bind (·.name))
    let teacher :=
      match o.teachers with
      | [] => ""
      | t :: _ => strOrEmpty t.abbreviation
    let rname := strOrEmpty (o.room.bind (·.name))
    let parts := ([subj,
      if teacher.isEmpty then "" else "(" ++ teacher ++ ")",
      if rname.isEmpty then "" else "in " ++ rname]).filter
        (fun p => !p.isEmpty)
    String.intercalate " " parts

/-- ScheduleCalendar._lesson_texts: summary and description of one
lesson, with optional emoji highlighting. -/
def lesson_texts (highlight : Bool) (lesson : CalLesson) : String × String :=
  let ltype := (lesson.type).getD "regularLesson"
  let actual := lesson.actualLesson
  let newSubA := firstTruthy (actual.bind (fun a => a.subject.bind (·.abbreviation)))
    (actual.bind (fun a => a.subject.bind (·.name)))
  let newSub :=
    if newSubA.isEmpty && lesson.subject.isSome then
      firstTruthy (lesson.subject.bind (·.abbreviation))
        (lesson.subject.bind (·.name))
    else newSubA
  let room :=
    match actual.bind (·.room) with
    | some r => strOrEmpty r.name
    | none => strOrEmpty (lesson.room.bind (·.name))
  let emoji :=
    if highlight then
      if ltype = "cancelledLesson" then "❌ "
      else if ltype = "substitution" || ltype = "specialLesson" ||
          ltype = "teacherChange" || ltype = "irregularLesson" then "🔁 "
      else if ltype = "roomChange" then "🚪 "
      else if ltype = "exam" then "📝 "
      else ""
    else ""
  let baseTitle0 := if newSub.isEmpty then "Unterricht" else newSub
  let baseTitle :=
    if room.isEmpty then baseTitle0 else baseTitle0 ++ " – " ++ room
  let summary :=
    if !highlight && ltype = "cancelledLesson" then "X " ++ baseTitle
    else emoji ++ baseTitle
  let tlist :=
    match actual with
    | some a => if a.teachers.isEmpty then lesson.teachers else a.teachers
    | none => lesson.teachers
  let teacherAbbr := String.intercalate ", " (tlist.map (fun t =>
    match t.abbreviation with
    | some ab => if ab.isEmpty then
        String.mk (stripWs ((strOrEmpty t.firstname) ++ " " ++
          (strOrEmpty t.lastname)).data)
      else ab
    | none => String.mk (stripWs ((strOrEmpty t.firstname) ++ " " ++
        (strOrEmpty t.lastname)).data)))
  let changeReason := firstTruthy lesson.substitutionText lesson.comment
  let descParts := (([if teacherAbbr.isEmpty then "" else "Lehrer: " ++ teacherAbbr,
    if room.isEmpty then "" else "Raum: " ++ room,
    if ltype ≠ "regularLesson" then "Typ: " ++ ltype else "",
    if changeReason.isEmpty then "" else "Hinweis: " ++ changeReason])).filter
      (fun p => !p.isEmpty)
  (summary, String.intercalate "\n" descParts)

/-- One produced calendar event: the primary lesson it was built from
plus its summary and description (start/end times omitted, see the
section comment). -/
structure CalEvent where
  lesson : CalLesson
  summary : String
  description : String
  deriving DecidableEq, Repr

/-- Grouping key: str(classHour["number"]) when present, else the
unique fallback "idx_i" from the enumeration index. -/
def lessonKey (i : ℕ) (l : CalLesson) : String :=
  match l.classHourNumber with
  | some s => s
  | none => "idx_" ++ toString i

/-- Keys in first-occurrence order, duplicates removed (insertion
order of a Python dict built with setdefault). -/
def distinctKeysAux : List String → List String → List String
  | [], acc => acc.reverse
  | k :: rest, acc =>
    if acc.contains k then distinctKeysAux rest acc
    else distinctKeysAux rest (k :: acc)

/-- Ordered grouping of the lessons by key, exactly as the groups dict
of _iter_events_for_day is built. -/
def lessonGroups (lessons : List CalLesson) : List (List CalLesson) :=
  let keyed := (lessons.enum).map (fun p => (lessonKey p.1 p.2, p.2))
  let keys := distinctKeysAux (keyed.map Prod.fst) []
  keys.map (fun k => (keyed.filter (fun p => p.1 = k)).map Prod.snd)

/-- Loop body of _iter_events_for_day for one group of lessons:
zero or one events. -/
def groupEvents (highlight hideCancelledNoHighlight : Bool)
    (items : List CalLesson) : List CalEvent :=
  let cancelled := items.filter isCancelledLesson
  let active := items.filter (fun l => !isCancelledLesson l)
  match active with
  | chosen :: _ =>
    let base := lesson_texts highlight chosen
    let description :=
      match cancelled with
      | [] => base.2
      | c :: _ =>
        let oi := original_info c
        if oi.isEmpty then base.2
        else (if base.2.isEmpty then "" else base.2 ++ "\n") ++
          "Ursprünglich: " ++ oi
    [{ lesson := chosen, summary := base.1, description := description }]
  | [] =>
    if !highlight && hideCancelledNoHighlight then []
    else
      match cancelled with
      | c :: _ =>
        [{ lesson := c, summary := (lesson_texts highlight c).1,
           description := (lesson_texts highlight c).2 }]
      | [] => []

/-- ScheduleCalendar._iter_events_for_day: group the day's lessons by
hour key and emit the per-group events in group order. -/
def iter_events_for_day (highlight hideCancelledNoHighlight : Bool)
    (lessons : List CalLesson) : List CalEvent :=
  (lessonGroups lessons).flatMap (groupEvents highlight hideCancelledNoHighlight)

/-! ## Credential hashing

Shallow embedding of SchulmanagerClient._pbkdf2_hash_hex and of the
hashing step of async_login.  hashlib.pbkdf2_hmac("sha512", ...) is
modelled by a full implementation of SHA-512 (FIPS 180-4), HMAC
(RFC 2104) and PBKDF2 (RFC 2898) over byte lists, with 64-bit words
as naturals reduced mod 2^64. -/

/-- Reduction to a 64-bit word. -/
def m64 (n : ℕ) : ℕ := n % 2 ^ 64

/-- Right rotation of a 64-bit word. -/
def rotr64 (n : ℕ) (x : ℕ) : ℕ :=
  m64 (x / 2 ^ n + (x % 2 ^ n) * 2 ^ (64 - n))

/-- Bitwise complement of a 64-bit word. -/
def not64 (x : ℕ) : ℕ := Nat.xor x (2 ^ 64 - 1)

/-- SHA-512 Ch function. -/
def shaCh (x y z : ℕ) : ℕ := Nat.xor (x &&& y) (not64 x &&& z)

/-- SHA-512 Maj function. -/
def shaMaj (x y z : ℕ) : ℕ := Nat.xor (Nat.xor (x &&& y) (x &&& z)) (y &&& z)

/-- SHA-512 big sigma 0. -/
def bigSigma0 (x : ℕ) : ℕ :=
  Nat.xor (Nat.xor (rotr64 28 x) (rotr64 34 x)) (rotr64 39 x)

/-- SHA-512 big sigma 1. -/
def bigSigma1 (x : ℕ) : ℕ :=
  Nat.xor (Nat.xor (rotr64 14 x) (rotr64 18 x)) (rotr64 41 x)

/-- SHA-512 small sigma 0. -/
def smallSigma0 (x : ℕ) : ℕ :=
  Nat.xor (Nat.xor (rotr64 1 x) (rotr64 8 x)) (x / 2 ^ 7)

/-- SHA-512 small sigma 1. -/
def smallSigma1 (x : ℕ) : ℕ :=
  Nat.xor (Nat.xor (rotr64 19 x) (rotr64 61 x)) (x / 2 ^ 6)

/-- SHA-512 round constants (FIPS 180-4), written as decimal 64-bit values. -/
def shaK : List ℕ :=
  [4794697086780616226, 8158064640168781261, 13096744586834688815,
   16840607885511220156, 4131703408338449720, 6480981068601479193,
   10538285296894168987, 12329834152419229976, 15566598209576043074,
   1334009975649890238, 2608012711638119052, 6128411473006802146,
   8268148722764581231, 9286055187155687089, 11230858885718282805,
   13951009754708518548, 16472876342353939154, 17275323862435702243,
   1135362057144423861, 2597628984639134821, 3308224258029322869,
   5365058923640841347, 6679025012923562964, 8573033837759648693,
   10970295158949994411, 12119686244451234320, 12683024718118986047,
   13788192230050041572, 14330467153632333762, 15395433587784984357,
   489312712824947311, 1452737877330783856, 2861767655752347644,
   3322285676063803686, 5560940570517711597, 5996557281743188959,
   7280758554555802590, 8532644243296465576, 9350256976987008742,
   10552545826968843579, 11727347734174303076, 12113106623233404929,
   14000437183269869457, 14369950271660146224, 15101387698204529176,
   15463397548674623760, 17586052441742319658, 1182934255886127544,
   1847814050463011016, 2177327727835720531, 2830643537854262169,
   3796741975233480872, 4115178125766777443, 5681478168544905931,
   6601373596472566643, 7507060721942968483, 8399075790359081724,
   8693463985226723168, 9568029438360202098, 10144078919501101548,
   10430055236837252648, 11840083180663258601, 13761210420658862357,
   14299343276471374635, 14566680578165727644, 15097957966210449927,
   16922976911328602910, 17689382322260857208, 500013540394364858,
   748580250866718886, 1242879168328830382, 1977374033974150939,
   2944078676154940804, 3659926193048069267, 4368137639120453308,
   4836135668995329356, 5532061633213252278, 6448918945643986474,
   6902733635092675308, 7801388544844847127]

/-- SHA-512 working state (eight 64-bit words). -/
structure Sha512State where
  a : ℕ
  b : ℕ
  c : ℕ
  d : ℕ
  e : ℕ
  f : ℕ
  g : ℕ
  h : ℕ
  deriving Repr

/-- SHA-512 initial hash value (FIPS 180-4), written as decimal 64-bit values. -/
def sha512H0 : Sha512State :=
  ⟨7640891576956012808, 13503953896175478587, 4354685564936845355,
   11912009170470909681, 5840696475078001361, 11170449401992604703,
   2270897969802886507, 6620516959819538809⟩

/-- Big-endian 64-bit word from eight bytes. -/
def wordOfBytes (bs : List ℕ) : ℕ := bs.foldl (fun acc b => acc * 256 + b) 0

/-- Eight big-endian bytes of a 64-bit word. -/
def bytesOfWord (w : ℕ) : List ℕ :=
  [w / 2 ^ 56 % 256, w / 2 ^ 48 % 256, w / 2 ^ 40 % 256, w / 2 ^ 32 % 256,
   w / 2 ^ 24 % 256, w / 2 ^ 16 % 256, w / 2 ^ 8 % 256, w % 256]

/-- Split a list into consecutive chunks of n elements. -/
def chunkList {χ : Type} (n : ℕ) (l : List χ) : List (List χ) :=
  if h : n = 0 ∨ l.isEmpty then []
  else l.take n :: chunkList n (l.drop n)
termination_by l.length
decreasing_by
  have hn : n ≠ 0 := fun he => h (Or.inl he)
  have hl : l ≠ [] := by
    intro he
    exact h (Or.inr (by rw [he]; rfl))
  have h1 : 0 < l.length := List.length_pos.mpr hl
  have h2 : (l.drop n).length = l.length - n := List.length_drop n l
  omega

/-- SHA-512 message padding: append 0x80, zeros and the 128-bit
big-endian bit length to reach a multiple of 128 bytes. -/
def sha512Pad (msg : List ℕ) : List ℕ :=
  let len := msg.length
  let zeros := (112 + 128 - (len + 1) % 128) % 128
  let bitLen := 8 * len
  msg ++ [0x80] ++ List.replicate zeros 0 ++
    (bytesOfWord (bitLen / 2 ^ 64) ++ bytesOfWord (m64 bitLen))

/-- SHA-512 message schedule of one 16-word block. -/
def sha512Schedule (block : List ℕ) : List ℕ :=
  (List.range 80).foldl (fun ws t =>
    if t < 16 then ws ++ [block.getD t 0]
    else ws ++ [m64 (smallSigma1 (ws.getD (t - 2) 0) + ws.getD (t - 7) 0 +
      smallSigma0 (ws.getD (t - 15) 0) + ws.getD (t - 16) 0)]) []

/-- One SHA-512 round. -/
def sha512Round (wt kt : ℕ) (st : Sha512State) : Sha512State :=
  let t1 := m64 (st.h + bigSigma1 st.e + shaCh st.e st.f st.g + kt + wt)
  let t2 := m64 (bigSigma0 st.a + shaMaj st.a st.b st.c)
  ⟨m64 (t1 + t2), st.a, st.b, st.c, m64 (st.d + t1), st.e, st.f, st.g⟩

/-- SHA-512 compression of one block. -/
def sha512Compress (st : Sha512State) (block : List ℕ) : Sha512State :=
  let ws := sha512Schedule block
  let fin := (List.range 80).foldl (fun s t =>
    sha512Round (ws.getD t 0) (shaK.getD t 0) s) st
  ⟨m64 (st.a + fin.a), m64 (st.b + fin.b), m64 (st.c + fin.c),
   m64 (st.d + fin.d), m64 (st.e + fin.e), m64 (st.f + fin.f),
   m64 (st.g + fin.g), m64 (st.h + fin.h)⟩

/-- Digest bytes of a final SHA-512 state. -/
def sha512Digest (st : Sha512State) : List ℕ :=
  bytesOfWord st.a ++ bytesOfWord st.b ++ bytesOfWord st.c ++
  bytesOfWord st.d ++ bytesOfWord st.e ++ bytesOfWord st.f ++
  bytesOfWord st.g ++ bytesOfWord st.h

/-- SHA-512 of a byte list. -/
def sha512 (msg : List ℕ) : List ℕ :=
  let blocks := (chunkList 128 (sha512Pad msg)).map
    (fun chunk => (chunkList 8 chunk).map wordOfBytes)
  sha512Digest (blocks.foldl sha512Compress sha512H0)

/-- HMAC-SHA512 (block size 128 bytes). -/
def hmacSha512 (key msg : List ℕ) : List ℕ :=
  let k0 := if 128 < key.length then sha512 key else key
  let kp := k0 ++ List.replicate (128 - k0.length) 0
  let ipad := kp.map (fun b => Nat.xor b 0x36)
  let opad := kp.map (fun b => Nat.xor b 0x5c)
  sha512 (opad ++ sha512 (ipad ++ msg))

/-- Bytewise xor of equal-length byte lists. -/
def zipXor (a b : List ℕ) : List ℕ := List.zipWith Nat.xor a b

/-- Big-endian 32-bit block index of PBKDF2. -/
def int32be (i : ℕ) : List ℕ :=
  [i / 2 ^ 24 % 256, i / 2 ^ 16 % 256, i / 2 ^ 8 % 256, i % 256]

/-- Iteration loop of one PBKDF2 block: c-1 further applications of
the PRF, xor-accumulated. -/
def pbkdf2Iter (pw : List ℕ) : ℕ → List ℕ → List ℕ → List ℕ
  | 0, _, acc => acc
  | k + 1, cur, acc =>
    let u := hmacSha512 pw cur
    pbkdf2Iter pw k u (zipXor acc u)

/-- One output block T_i of PBKDF2. -/
def pbkdf2Block (pw salt : List ℕ) (c i : ℕ) : List ℕ :=
  let u1 := hmacSha512 pw (salt ++ int32be i)
  pbkdf2Iter pw (c - 1) u1 u1

/-- PBKDF2-HMAC-SHA512, as computed by
hashlib.pbkdf2_hmac("sha512", pw, salt, c, dklen). -/
def pbkdf2HmacSha512 (pw salt : List ℕ) (c dklen : ℕ) : List ℕ :=
  let nblocks := (dklen + 63) / 64
  (((List.range nblocks).map (fun i => pbkdf2Block pw salt c (i + 1))).flatten).take
    dklen

/-- Lowercase hex digit of a nibble: code point 48 + m for m below ten,
otherwise 87 + m (so ten maps to the letter a, fifteen to f). -/
def hexChar (n : ℕ) : Char :=
  if n % 16 < 10 then Char.ofNat (48 + n % 16) else Char.ofNat (87 + n % 16)

/-- Lowercase hex encoding of a byte list (bytes.hex()). -/
def bytesToHex (bs : List ℕ) : String :=
  String.mk (bs.flatMap (fun b => [hexChar (b / 16), hexChar b]))

/-- Latin-1 strict encoding: one byte per code point, failing
(UnicodeEncodeError) on any code point above 255. -/
def latin1Encode (s : String) : Option (List ℕ) :=
  if s.data.all (fun c => c.toNat ≤ 255) then
    some (s.data.map Char.toNat)
  else none

/-- UTF-8 bytes of the salt string (salt_str.encode("utf-8")). -/
def utf8Bytes (s : String) : List ℕ := s.toUTF8.toList.map UInt8.toNat

/-- SchulmanagerClient._pbkdf2_hash_hex; none models the propagated
UnicodeEncodeError of the strict Latin-1 encode. -/
def pbkdf2_hash_hex (password saltStr : String) : Option String :=
  (latin1Encode password).map (fun pw =>
    bytesToHex (pbkdf2HmacSha512 pw (utf8Bytes saltStr) 99999 512))

/-- Failure surfaced when the hashing step of async_login raises: the
login attempt is aborted before any credential POST; callers map the
exception to the failed-authentication outcome. -/
inductive AuthFailure where
  | encodingFailure
  deriving DecidableEq, Repr

/-- Hashing step of SchulmanagerClient.async_login, given the salt
fetched for this attempt. -/
def async_login_hash_step (password saltStr : String) :
    Except AuthFailure String :=
  match pbkdf2_hash_hex password saltStr with
  | some h => Except.ok h
  | none => Except.error AuthFailure.encodingFailure

/-! # Theorems -/

/-- C9: for every requested week count w, the schedule fetch clamps w
into [1, 3] and requests exactly the window from the Monday of the
current week through 7*w' - 1 days later, where w' is the clamped
value. -/
theorem c9_schedule_window_clamped (today weeks : ℤ) :
    1 ≤ clamp_weeks weeks ∧ clamp_weeks weeks ≤ 3 ∧
    (1 ≤ weeks → weeks ≤ 3 → clamp_weeks weeks = weeks) ∧
    pyWeekday (schedule_window today weeks).1 = 0 ∧
    (schedule_window today weeks).1 ≤ today ∧
    today - (schedule_window today weeks).1 ≤ 6 ∧
    (schedule_window today weeks).2 =
      (schedule_window today weeks).1 + (7 * clamp_weeks weeks - 1) := by
  refine ⟨?_, ?_, ?_, ?_, ?_, ?_, rfl⟩
  · exact le_min (le_max_right weeks 1) (by norm_num)
  · exact min_le_right _ 3
  · intro h1 h3
    unfold clamp_weeks
    rw [max_eq_left h1, min_eq_left h3]
  · simp only [schedule_window, pyWeekday]
    omega
  · simp only [schedule_window, pyWeekday]
    omega
  · simp only [schedule_window, pyWeekday]
    omega

/-- C9 witness. -/
theorem c9_schedule_window_clamped_witness :
    clamp_weeks 2 = 2 ∧ (schedule_window 739170 2).2 =
      (schedule_window 739170 2).1 + (7 * clamp_weeks 2 - 1) :=
  ⟨(c9_schedule_window_clamped 739170 2).2.2.1 (by decide) (by decide),
   (c9_schedule_window_clamped 739170 2).2.2.2.2.2.2⟩

/-- C10: clearing the auth cache nulls the session token and the
bundle version together and leaves every other client field (student
roster, subjects cache, institution id, last data snapshot, cached
multi-account list) unchanged. -/
theorem c10_clear_auth_cache_frame {σ δ μ : Type} (st : ClientState σ δ μ) :
    (clear_auth_cache st).token = none ∧
    (clear_auth_cache st).bundleVersion = none ∧
    (clear_auth_cache st).students = st.students ∧
    (clear_auth_cache st).subjectsCache = st.subjectsCache ∧
    (clear_auth_cache st).institutionId = st.institutionId ∧
    (clear_auth_cache st).data = st.data ∧
    (clear_auth_cache st).multipleAccounts = st.multipleAccounts := by
  unfold clear_auth_cache
  exact ⟨rfl, rfl, rfl, rfl, rfl, rfl, rfl⟩

/-- C3 counterexample: the claim says that (non-error, non-empty
cases) only the first result entry is consulted and its data is
returned; but when the first entry carries no "data" member the
wrapper returns the whole parsed body, which differs between two
responses whose first entries agree. -/
theorem c3_counterexample :
    api_call_handle 200
        (⟨some [RpcEntry.dict (some (SubStatus.num 200)) none,
                RpcEntry.dict (some (SubStatus.num 200)) (some 5)]⟩ :
          RpcBody ℕ) =
      CallOutcome.wholeBody
        ⟨some [RpcEntry.dict (some (SubStatus.num 200)) none,
               RpcEntry.dict (some (SubStatus.num 200)) (some 5)]⟩ ∧
    api_call_handle 200
        (⟨some [RpcEntry.dict (some (SubStatus.num 200)) none,
                RpcEntry.dict (some (SubStatus.num 200)) (some 7)]⟩ :
          RpcBody ℕ) =
      CallOutcome.wholeBody
        ⟨some [RpcEntry.dict (some (SubStatus.num 200)) none,
               RpcEntry.dict (some (SubStatus.num 200)) (some 7)]⟩ ∧
    api_call_handle 200
        (⟨some [RpcEntry.dict (some (SubStatus.num 200)) none,
                RpcEntry.dict (some (SubStatus.num 200)) (some 5)]⟩ :
          RpcBody ℕ) ≠
      api_call_handle 200
        (⟨some [RpcEntry.dict (some (SubStatus.num 200)) none,
                RpcEntry.dict (some (SubStatus.num 200)) (some 7)]⟩ :
          RpcBody ℕ) ∧
    (CallOutcome.wholeBody
        (⟨some [RpcEntry.dict (some (SubStatus.num 200)) none,
                RpcEntry.dict (some (SubStatus.num 200)) (some 5)]⟩ :
          RpcBody ℕ)) ≠ CallOutcome.emptyResult := by
  refine ⟨rfl, rfl, by decide, by decide⟩

/-- C3 amended: non-200 HTTP status is an error; a 200 response with
an empty or missing results array yields the empty result; a first
entry with a sub-status other than 200 yields the empty result; a
first entry that is an object with a "data" member yields that data;
a first entry without a "data" member (or that is not an object, or
that passes with no "status") makes the wrapper return the whole
parsed body instead. -/
theorem c3_api_call_response_handling {α : Type} (status : ℕ) (b : RpcBody α) :
    (status ≠ 200 → api_call_handle status b = CallOutcome.httpError status) ∧
    (status = 200 → b.results.getD [] = [] →
      api_call_handle status b = CallOutcome.emptyResult) ∧
    (∀ s d rest, status = 200 →
      b.results = some (RpcEntry.dict (some s) d :: rest) →
      s ≠ SubStatus.num 200 →
      api_call_handle status b = CallOutcome.emptyResult) ∧
    (∀ st d v rest, status = 200 →
      b.results = some (RpcEntry.dict st d :: rest) →
      (st = none ∨ st = some (SubStatus.num 200)) → d = some v →
      api_call_handle status b = CallOutcome.dataOf v) ∧
    (∀ st rest, status = 200 →
      b.results = some (RpcEntry.dict st none :: rest) →
      (st = none ∨ st = some (SubStatus.num 200)) →
      api_call_handle status b = CallOutcome.wholeBody b) ∧
    (∀ rest, status = 200 → b.results = some (RpcEntry.nonDict :: rest) →
      api_call_handle status b = CallOutcome.wholeBody b) := by
  refine ⟨?_, ?_, ?_, ?_, ?_, ?_⟩
  · intro h; simp [api_call_handle, h]
  · intro h he; subst h; simp [api_call_handle, he]
  · intro s d rest h hr hs; subst h
    simp [api_call_handle, hr, hs]
  · intro st d v rest h hr hst hd; subst h; subst hd
    rcases hst with hst | hst <;> subst hst <;> simp [api_call_handle, hr]
  · intro st rest h hr hst; subst h
    rcases hst with hst | hst <;> subst hst <;> simp [api_call_handle, hr]
  · intro rest h hr; subst h; simp [api_call_handle, hr]

/-- C3 witness. -/
theorem c3_api_call_response_handling_witness :
    api_call_handle 500 (⟨none⟩ : RpcBody ℕ) = CallOutcome.httpError 500 ∧
    api_call_handle 200 (⟨none⟩ : RpcBody ℕ) = CallOutcome.emptyResult ∧
    api_call_handle 200
        (⟨some [RpcEntry.dict (some (SubStatus.num 500)) (some 3)]⟩ :
          RpcBody ℕ) = CallOutcome.emptyResult ∧
    api_call_handle 200
        (⟨some [RpcEntry.dict (some (SubStatus.num 200)) (some 3)]⟩ :
          RpcBody ℕ) = CallOutcome.dataOf 3 :=
  ⟨(c3_api_call_response_handling 500 ⟨none⟩).1 (by decide),
   (c3_api_call_response_handling 200 ⟨none⟩).2.1 rfl rfl,
   (c3_api_call_response_handling 200 _).2.2.1 (SubStatus.num 500) (some 3)
     [] rfl rfl (by decide),
   (c3_api_call_response_handling 200 _).2.2.2.1 (some (SubStatus.num 200))
     (some 3) 3 [] rfl rfl (Or.inr rfl) rfl⟩

/-- C6 counterexample: with the default 5-minute cooldown, a refresh
recorded at t = 0 and queried at t = 0.5 s leaves 299.5 s of wait;
the claim's ceiling is 300, but the code truncates to 299. -/
theorem c6_counterexample :
    can_refresh none (1/2 : ℚ) ⟨some 0⟩ = false ∧
    get_remaining_cooldown none (1/2 : ℚ) ⟨some 0⟩ = 299 ∧
    ⌈60 * ((get_validated_refresh_cooldown none : ℚ)) - ((1/2 : ℚ) - 0)⌉ = 300 ∧
    (299 : ℤ) ≠ 300 := by
  refine ⟨?_, ?_, ?_, by decide⟩
  · unfold can_refresh get_validated_refresh_cooldown
    norm_num
  · unfold get_remaining_cooldown get_validated_refresh_cooldown
    norm_num
  · unfold get_validated_refresh_cooldown
    norm_num
    rw [Int.ceil_eq_iff] <;> norm_num

/-- C6 amended: can_refresh is true iff no refresh is recorded or the
elapsed time is at least the configured cooldown clamped into [5, 30]
minutes (default 5); the remaining-seconds query returns 0 when
refresh is allowed and otherwise the integer truncation (floor, not
ceiling) of the remaining wait; immediately after a refresh is
recorded can_refresh is false and remaining-seconds equals the full
configured cooldown exactly. -/
theorem c6_cooldown_manager (cfg : Option ℤ) (now t : ℚ) (st : CooldownState) :
    (5 ≤ get_validated_refresh_cooldown cfg ∧
     get_validated_refresh_cooldown cfg ≤ 30 ∧
     get_validated_refresh_cooldown none = 5) ∧
    can_refresh cfg now ⟨none⟩ = true ∧
    (can_refresh cfg now ⟨some t⟩ = true ↔
      now - t ≥ 60 * (get_validated_refresh_cooldown cfg : ℚ)) ∧
    (can_refresh cfg now st = true → get_remaining_cooldown cfg now st = 0) ∧
    (can_refresh cfg now ⟨some t⟩ = false →
      get_remaining_cooldown cfg now ⟨some t⟩ =
        ⌊60 * (get_validated_refresh_cooldown cfg : ℚ) - (now - t)⌋) ∧
    can_refresh cfg now (record_refresh now st) = false ∧
    get_remaining_cooldown cfg now (record_refresh now st) =
      60 * get_validated_refresh_cooldown cfg := by
  have hc5 : 5 ≤ get_validated_refresh_cooldown cfg :=
    le_max_left 5 _
  have hcpos : (0 : ℚ) < 60 * (get_validated_refresh_cooldown cfg : ℚ) := by
    have : (5 : ℚ) ≤ (get_validated_refresh_cooldown cfg : ℚ) := by
      exact_mod_cast hc5
    nlinarith
  have hc30 : get_validated_refresh_cooldown cfg ≤ 30 := by
    unfold get_validated_refresh_cooldown
    exact max_le (by norm_num) (min_le_left 30 _)
  refine ⟨⟨hc5, hc30, rfl⟩, rfl, ?_, ?_, ?_, ?_, ?_⟩
  · unfold can_refresh
    simp
  · intro h
    unfold can_refresh at h
    unfold get_remaining_cooldown
    cases hst : st.lastManualRefresh with
    | none => simp
    | some u =>
      rw [hst] at h
      simp only [decide_eq_true_eq] at h
      simp [h]
  · intro h
    unfold can_refresh at h
    simp only [decide_eq_true_eq, decide_eq_false_iff_not] at h
    unfold get_remaining_cooldown
    simp only []
    rw [if_neg h]
  · unfold can_refresh record_refresh
    simp only [decide_eq_false_iff_not]
    intro hcon
    have : now - now = 0 := by ring
    rw [this] at hcon
    exact absurd hcon (not_le.mpr hcpos)
  · unfold get_remaining_cooldown record_refresh
    simp only []
    rw [if_neg (by
      intro hcon
      have : now - now = 0 := by ring
      rw [this] at hcon
      exact absurd hcon (not_le.mpr hcpos))]
    have : 60 * (get_validated_refresh_cooldown cfg : ℚ) - (now - now) =
        ((60 * get_validated_refresh_cooldown cfg : ℤ) : ℚ) := by
      push_cast
      ring
    rw [this, Int.floor_intCast]

/-- C6 witness. -/
theorem c6_cooldown_manager_witness :
    get_remaining_cooldown (some 10) (700 : ℚ) ⟨some 0⟩ = 0 ∧
    can_refresh (some 10) (700 : ℚ) (record_refresh 700 ⟨some 0⟩) = false ∧
    get_remaining_cooldown (some 10) (700 : ℚ) (record_refresh 700 ⟨some 0⟩) =
      60 * get_validated_refresh_cooldown (some 10) := by
  have h := c6_cooldown_manager (some 10) 700 0 ⟨some 0⟩
  refine ⟨h.2.2.2.1 (h.2.2.1.mpr ?_), h.2.2.2.2.2.1, h.2.2.2.2.2.2⟩
  unfold get_validated_refresh_cooldown
  norm_num

theorem dictGet_dictSet {v : Type} (m : List (String × v)) (k k' : String)
    (x : v) :
    dictGet (dictSet m k x) k' = if k' = k then some x else dictGet m k' := by
  induction m with
  | nil =>
    by_cases h : k' = k
    · subst h; simp [dictSet, dictGet]
    · simp only [dictSet, dictGet]
      rw [if_neg (fun he => h he.symm), if_neg h]
  | cons p rest ih =>
    by_cases hp : p.1 = k
    · by_cases h : k' = k
      · subst h; simp [dictSet, dictGet, hp]
      · have hpk : ¬p.1 = k' := by rw [hp]; exact fun he => h he.symm
        simp [dictSet, dictGet, hp, hpk, h,
          show ¬k = k' from fun he => h he.symm]
    · by_cases h : k' = k
      · subst h; simp [dictSet, dictGet, hp, ih]
      · simp [dictSet, dictGet, hp, ih, h]

theorem foldl_dictSet_get {v : Type} (f : String → v) (l : List Student)
    (m : List (String × v)) (sid : String) :
    dictGet (l.foldl (fun acc st => dictSet acc st.id (f st.id)) m) sid =
      if sid ∈ l.map Student.id then some (f sid) else dictGet m sid := by
  induction l generalizing m with
  | nil => simp
  | cons st rest ih =>
    rw [List.foldl_cons, ih]
    by_cases hm : sid ∈ rest.map Student.id
    · simp [hm]
    · by_cases he : sid = st.id
      · subst he
        simp [hm, dictGet_dictSet]
      · simp [hm, dictGet_dictSet, he]

theorem updFold_students {α β γ δ : Type} (en : Enabled)
    (o : FetchOutcomes α β γ δ) (l : List Student) (acc : Snapshot α β γ δ) :
    (l.foldl (updateStep en o) acc).students = acc.students := by
  induction l generalizing acc with
  | nil => rfl
  | cons st rest ih => rw [List.foldl_cons, ih]; rfl

theorem updFold_homework {α β γ δ : Type} (en : Enabled)
    (o : FetchOutcomes α β γ δ) (l : List Student) (acc : Snapshot α β γ δ) :
    (l.foldl (updateStep en o) acc).homework =
      l.foldl (fun m st => dictSet m st.id (homeworkEntry en o st.id))
        acc.homework := by
  induction l generalizing acc with
  | nil => rfl
  | cons st rest ih => rw [List.foldl_cons, ih]; rfl

theorem updFold_schedule {α β γ δ : Type} (en : Enabled)
    (o : FetchOutcomes α β γ δ) (l : List Student) (acc : Snapshot α β γ δ) :
    (l.foldl (updateStep en o) acc).schedule =
      l.foldl (fun m st => dictSet m st.id (scheduleEntry en o st.id))
        acc.schedule := by
  induction l generalizing acc with
  | nil => rfl
  | cons st rest ih => rw [List.foldl_cons, ih]; rfl

theorem updFold_exams {α β γ δ : Type} (en : Enabled)
    (o : FetchOutcomes α β γ δ) (l : List Student) (acc : Snapshot α β γ δ) :
    (l.foldl (updateStep en o) acc).exams =
      l.foldl (fun m st => dictSet m st.id (examsEntry en o st.id))
        acc.exams := by
  induction l generalizing acc with
  | nil => rfl
  | cons st rest ih => rw [List.foldl_cons, ih]; rfl

theorem updFold_grades {α β γ δ : Type} (en : Enabled)
    (o : FetchOutcomes α β γ δ) (l : List Student) (acc : Snapshot α β γ δ) :
    (l.foldl (updateStep en o) acc).grades =
      l.foldl (fun m st => dictSet m st.id (gradesEntry en o st.id))
        acc.grades := by
  induction l generalizing acc with
  | nil => rfl
  | cons st rest ih => rw [List.foldl_cons, ih]; rfl

theorem async_update_homework_get {α β γ δ : Type} (students : List Student)
    (en : Enabled) (o : FetchOutcomes α β γ δ) (sid : String) :
    dictGet (async_update students en o).homework sid =
      if sid ∈ students.map Student.id then some (homeworkEntry en o sid)
      else none := by
  unfold async_update
  rw [updFold_homework, foldl_dictSet_get]
  rfl

theorem async_update_schedule_get {α β γ δ : Type} (students : List Student)
    (en : Enabled) (o : FetchOutcomes α β γ δ) (sid : String) :
    dictGet (async_update students en o).schedule sid =
      if sid ∈ students.map Student.id then some (scheduleEntry en o sid)
      else none := by
  unfold async_update
  rw [updFold_schedule, foldl_dictSet_get]
  rfl

theorem async_update_exams_get {α β γ δ : Type} (students : List Student)
    (en : Enabled) (o : FetchOutcomes α β γ δ) (sid : String) :
    dictGet (async_update students en o).exams sid =
      if sid ∈ students.map Student.id then some (examsEntry en o sid)
      else none := by
  unfold async_update
  rw [updFold_exams, foldl_dictSet_get]
  rfl

theorem async_update_grades_get {α β γ δ : Type} (students : List Student)
    (en : Enabled) (o : FetchOutcomes α β γ δ) (sid : String) :
    dictGet (async_update students en o).grades sid =
      if sid ∈ students.map Student.id then some (gradesEntry en o sid)
      else none := by
  unfold async_update
  rw [updFold_grades, foldl_dictSet_get]
  rfl

/-- C7: during a full update cycle, every student of the roster gets a
homework, schedule, exams, and grades entry in the snapshot; each
entry is determined by that (student, feature) fetch outcome alone
(so one failing fetch cannot affect any other entry); and a raised
exception in an enabled feature fetch stores that feature's
empty/default value. -/
theorem c7_async_update_isolated {α β γ δ : Type} (students : List Student)
    (en : Enabled) (o o2 : FetchOutcomes α β γ δ) (sid : String) :
    (async_update students en o).students = students ∧
    (sid ∈ students.map Student.id →
      dictGet (async_update students en o).homework sid =
        some (homeworkEntry en o sid) ∧
      dictGet (async_update students en o).schedule sid =
        some (scheduleEntry en o sid) ∧
      dictGet (async_update students en o).exams sid =
        some (examsEntry en o sid) ∧
      dictGet (async_update students en o).grades sid =
        some (gradesEntry en o sid)) ∧
    (en.homework = true → o.homework sid = Except.error () →
      homeworkEntry en o sid = []) ∧
    (en.schedule = true → o.schedule sid = Except.error () →
      scheduleEntry en o sid = SchedEntry.emptyPayload) ∧
    (en.exams = true → o.exams sid = Except.error () →
      examsEntry en o sid = []) ∧
    (en.grades = true → o.grades sid = Except.error () →
      gradesEntry en o sid = GradesEntry.emptySubjects) ∧
    (o.homework sid = o2.homework sid → o.schedule sid = o2.schedule sid →
     o.exams sid = o2.exams sid → o.grades sid = o2.grades sid →
      dictGet (async_update students en o).homework sid =
        dictGet (async_update students en o2).homework sid ∧
      dictGet (async_update students en o).schedule sid =
        dictGet (async_update students en o2).schedule sid ∧
      dictGet (async_update students en o).exams sid =
        dictGet (async_update students en o2).exams sid ∧
      dictGet (async_update students en o).grades sid =
        dictGet (async_update students en o2).grades sid) := by
  refine ⟨?_, ?_, ?_, ?_, ?_, ?_, ?_⟩
  · unfold async_update; rw [updFold_students]
  · intro hm
    rw [async_update_homework_get, async_update_schedule_get,
      async_update_exams_get, async_update_grades_get]
    simp [hm]
  · intro he hf; simp [homeworkEntry, he, hf]
  · intro he hf; simp [scheduleEntry, he, hf]
  · intro he hf; simp [examsEntry, he, hf]
  · intro he hf; simp [gradesEntry, he, hf]
  · intro h1 h2 h3 h4
    rw [async_update_homework_get, async_update_homework_get,
      async_update_schedule_get, async_update_schedule_get,
      async_update_exams_get, async_update_exams_get,
      async_update_grades_get, async_update_grades_get]
    refine ⟨?_, ?_, ?_, ?_⟩ <;>
      by_cases hm : sid ∈ students.map Student.id <;>
      simp [hm, homeworkEntry, scheduleEntry, examsEntry, gradesEntry,
        h1, h2, h3, h4]

/-- C7 witness. -/
theorem c7_async_update_isolated_witness :
    dictGet (async_update (α := ℕ) (β := ℕ) (γ := ℕ) (δ := ℕ)
        [⟨"s1", none, "A"⟩] ⟨true, true, true, true⟩
        ⟨fun _ => Except.error (), fun _ => Except.ok 7,
         fun _ => Except.ok [5], fun _ => Except.ok 9⟩).homework "s1" =
      some [] ∧
    dictGet (async_update (α := ℕ) (β := ℕ) (γ := ℕ) (δ := ℕ)
        [⟨"s1", none, "A"⟩] ⟨true, true, true, true⟩
        ⟨fun _ => Except.error (), fun _ => Except.ok 7,
         fun _ => Except.ok [5], fun _ => Except.ok 9⟩).schedule "s1" =
      some (SchedEntry.fetched 7) := by
  have h := c7_async_update_isolated (α := ℕ) (β := ℕ) (γ := ℕ) (δ := ℕ)
    [⟨"s1", none, "A"⟩] ⟨true, true, true, true⟩
    ⟨fun _ => Except.error (), fun _ => Except.ok 7,
     fun _ => Except.ok [5], fun _ => Except.ok 9⟩
    ⟨fun _ => Except.error (), fun _ => Except.ok 7,
     fun _ => Except.ok [5], fun _ => Except.ok 9⟩ "s1"
  have hmem : ("s1" : String) ∈
      ([⟨"s1", none, "A"⟩] : List Student).map Student.id := by decide
  refine ⟨?_, ?_⟩
  · rw [(h.2.1 hmem).1, h.2.2.1 rfl rfl]
  · rw [(h.2.1 hmem).2.1]
    rfl

/-- C5: for every hour group of a day's lessons that contains both a
cancelled lesson and at least one non-cancelled lesson, the calendar
event builder emits exactly one event for that group; its primary
lesson is the first non-cancelled lesson of the group; and (whenever
the first cancelled lesson carries original-lesson information) the
event's description ends with "Ursprünglich: " followed by that
information. -/
theorem c5_calendar_dedup (hl hc : Bool) (lessons : List CalLesson)
    (g : List CalLesson) (c0 : CalLesson) (crest : List CalLesson)
    (hg : g ∈ lessonGroups lessons)
    (hcanc : g.filter isCancelledLesson = c0 :: crest)
    (hact : ∃ a, a ∈ g ∧ isCancelledLesson a = false)
    (hoi : original_info c0 ≠ "") :
    ∃ e, groupEvents hl hc g = [e] ∧
      isCancelledLesson e.lesson = false ∧
      (g.filter (fun l => !isCancelledLesson l)).head? = some e.lesson ∧
      e.lesson ∈ g ∧
      e ∈ iter_events_for_day hl hc lessons ∧
      ∃ pre, e.description = pre ++ "Ursprünglich: " ++ original_info c0 := by
  obtain ⟨a, hag, hana⟩ := hact
  have hmem : a ∈ g.filter (fun l => !isCancelledLesson l) := by
    rw [List.mem_filter]
    exact ⟨hag, by rw [hana]; rfl⟩
  cases hA : g.filter (fun l => !isCancelledLesson l) with
  | nil => rw [hA] at hmem; exact absurd hmem (List.not_mem_nil a)
  | cons ch tl =>
    have hchf : ch ∈ g.filter (fun l => !isCancelledLesson l) := by
      rw [hA]; exact List.mem_cons_self ch tl
    rw [List.mem_filter] at hchf
    have hch : isCancelledLesson ch = false := by
      have := hchf.2; simp at this; exact this
    have hchg : ch ∈ g := hchf.1
    have hoib : (original_info c0).isEmpty = false := by
      cases he : (original_info c0).isEmpty
      · rfl
      · exact absurd ((String.isEmpty_iff _).mp he) hoi
    have hge : groupEvents hl hc g =
        [{ lesson := ch, summary := (lesson_texts hl ch).1,
           description :=
             (if (lesson_texts hl ch).2.isEmpty then ""
              else (lesson_texts hl ch).2 ++ "\n") ++
             "Ursprünglich: " ++ original_info c0 }] := by
      unfold groupEvents
      rw [hA, hcanc]
      simp only [hoib, Bool.false_eq_true, if_false]
    refine ⟨_, hge, hch, rfl, hchg, ?_, ?_⟩
    · unfold iter_events_for_day
      rw [List.mem_flatMap]
      exact ⟨g, hg, by rw [hge]; exact List.mem_cons_self _ _⟩
    · exact ⟨_, rfl⟩

/-- C5 witness. -/
theorem c5_calendar_dedup_witness :
    ∃ e, groupEvents true false
        [⟨some "cancelledLesson", some "3", none, none, [], none, none, none,
          [⟨some ⟨some "MA", some "Mathematik"⟩, [⟨some "SCH", none, none⟩],
            some ⟨some "101"⟩⟩]⟩,
         ⟨some "substitution", some "3",
          some ⟨some ⟨some "EN", some "Englisch"⟩, [⟨some "MUE", none, none⟩],
            some ⟨some "202"⟩⟩, none, [], none, some "Vertretung", none, []⟩] =
      [e] ∧
      e ∈ iter_events_for_day true false
        [⟨some "cancelledLesson", some "3", none, none, [], none, none, none,
          [⟨some ⟨some "MA", some "Mathematik"⟩, [⟨some "SCH", none, none⟩],
            some ⟨some "101"⟩⟩]⟩,
         ⟨some "substitution", some "3",
          some ⟨some ⟨some "EN", some "Englisch"⟩, [⟨some "MUE", none, none⟩],
            some ⟨some "202"⟩⟩, none, [], none, some "Vertretung", none, []⟩] := by
  obtain ⟨e, h1, _, _, _, h5, _⟩ := c5_calendar_dedup true false
    [⟨some "cancelledLesson", some "3", none, none, [], none, none, none,
      [⟨some ⟨some "MA", some "Mathematik"⟩, [⟨some "SCH", none, none⟩],
        some ⟨some "101"⟩⟩]⟩,
     ⟨some "substitution", some "3",
      some ⟨some ⟨some "EN", some "Englisch"⟩, [⟨some "MUE", none, none⟩],
        some ⟨some "202"⟩⟩, none, [], none, some "Vertretung", none, []⟩]
    [⟨some "cancelledLesson", some "3", none, none, [], none, none, none,
      [⟨some ⟨some "MA", some "Mathematik"⟩, [⟨some "SCH", none, none⟩],
        some ⟨some "101"⟩⟩]⟩,
     ⟨some "substitution", some "3",
      some ⟨some ⟨some "EN", some "Englisch"⟩, [⟨some "MUE", none, none⟩],
        some ⟨some "202"⟩⟩, none, [], none, some "Vertretung", none, []⟩]
    ⟨some "cancelledLesson", some "3", none, none, [], none, none, none,
      [⟨some ⟨some "MA", some "Mathematik"⟩, [⟨some "SCH", none, none⟩],
        some ⟨some "101"⟩⟩]⟩ []
    (by decide) (by decide) (by decide) (by decide)
  exact ⟨e, h1, h5⟩

theorem grades_inner_foldl (gl : List GradeValue) (a : List ℚ) :
    gl.foldl (fun a g =>
      match validGrade g with
      | some q => a ++ [q]
      | none => a) a = a ++ gl.filterMap validGrade := by
  induction gl generalizing a with
  | nil => simp
  | cons g gl ih =>
    rw [List.foldl_cons, List.filterMap_cons]
    cases hv : validGrade g with
    | none => rw [ih]
    | some q => rw [ih, List.append_assoc]; rfl

theorem grades_outer_foldl (cats : List (String × List GradeValue))
    (acc : List ℚ) :
    cats.foldl (fun acc p =>
      p.2.foldl (fun a g =>
        match validGrade g with
        | some q => a ++ [q]
        | none => a) acc) acc = acc ++ specValidValues cats := by
  induction cats generalizing acc with
  | nil => simp [specValidValues]
  | cons p cats ih =>
    rw [List.foldl_cons, ih, grades_inner_foldl]
    unfold specValidValues
    rw [List.flatMap_cons, List.filterMap_append, List.append_assoc]

theorem validGrade_range (g : GradeValue) (q : ℚ) (h : validGrade g = some q) :
    1 ≤ q ∧ q ≤ 6 := by
  unfold validGrade at h
  cases hp : parse_german_grade g with
  | none => rw [hp] at h; exact absurd h (by simp)
  | some x =>
    rw [hp] at h
    cases x with
    | fin r =>
      by_cases hr : 1 ≤ r ∧ r ≤ 6
      · simp only [hr, if_true] at h
        cases h; exact hr
      · simp only [hr, if_false] at h
        cases h
    | inf => cases h
    | neginf => cases h
    | nan => cases h

theorem calc_subject_average_eq (cats : List (String × List GradeValue)) :
    calculate_subject_average cats =
      if specValidValues cats = [] then none
      else some (round2 (specMean (specValidValues cats))) := by
  unfold calculate_subject_average
  cases cats with
  | nil => simp [specValidValues]
  | cons p rest =>
    simp only [List.isEmpty_cons, if_false, Bool.false_eq_true]
    rw [grades_outer_foldl (p :: rest) []]
    rw [List.nil_append]
    by_cases hv : specValidValues (p :: rest) = []
    · simp [hv]
    · simp only [hv, if_false]
      rw [if_neg (by simpa [List.isEmpty_iff] using hv)]
      rfl

/-- C2: in the grades payload, each subject's average is the
unweighted arithmetic mean, rounded to 2 decimals, of exactly the
parsed numeric grade values lying in [1.0, 6.0] across all of the
subject's categories (absent when there are none); every contributing
value lies in [1.0, 6.0]; and the overall average is the rounded
unweighted mean of the non-absent subject averages (absent iff every
subject average is absent), with the payload counters equal to the
number of subjects and the number of subjects with grades. -/
theorem c2_grades_payload_averages
    (subjects : List (List (String × List GradeValue))) :
    (∀ cats ∈ subjects, calculate_subject_average cats =
      if specValidValues cats = [] then none
      else some (round2 (specMean (specValidValues cats)))) ∧
    (∀ cats ∈ subjects, ∀ q ∈ specValidValues cats, 1 ≤ q ∧ q ≤ 6) ∧
    ((process_grades_averages subjects).1 =
      subjects.map calculate_subject_average) ∧
    ((process_grades_averages subjects).2.1 =
      if (process_grades_averages subjects).1.filterMap id = [] then none
      else some (round2 (specMean
        ((process_grades_averages subjects).1.filterMap id)))) ∧
    ((process_grades_averages subjects).2.1 = none ↔
      ∀ av ∈ (process_grades_averages subjects).1, av = none) ∧
    (process_grades_averages subjects).2.2.1 = subjects.length ∧
    (process_grades_averages subjects).2.2.2 =
      ((process_grades_averages subjects).1.filterMap id).length := by
  refine ⟨?_, ?_, rfl, ?_, ?_, rfl, rfl⟩
  · intro cats _
    exact calc_subject_average_eq cats
  · intro cats _ q hq
    unfold specValidValues at hq
    obtain ⟨g, _, hg⟩ := List.mem_filterMap.mp hq
    exact validGrade_range g q hg
  · unfold process_grades_averages
    by_cases hv : (subjects.map calculate_subject_average).filterMap id = []
    · simp [hv]
    · simp only [hv, if_false]
      rw [if_neg (by simpa [List.isEmpty_iff] using hv)]
      rfl
  · unfold process_grades_averages
    simp only []
    by_cases hv : (subjects.map calculate_subject_average).filterMap id = []
    · simp only [hv, List.isEmpty_nil, if_true]
      constructor
      · intro _
        intro av hav
        have := List.filterMap_eq_nil.mp hv
        exact this av hav
      · intro _; trivial
    · rw [if_neg (by simpa [List.isEmpty_iff] using hv)]
      constructor
      · intro h; cases h
      · intro hall
        exact absurd (List.filterMap_eq_nil.mpr (fun a ha => hall a ha)) hv

/-- C2 witness, including the spec's non-terminating-decimal example:
grades 2, 3, 3 average to 2.67. -/
theorem c2_grades_payload_averages_witness :
    calculate_subject_average
      [("Klausur", [GradeValue.num (PyFloat.fin 2), GradeValue.num (PyFloat.fin 3),
        GradeValue.num (PyFloat.fin 3)])] = some (267/100 : ℚ) := by
  have h := (c2_grades_payload_averages
    [[("Klausur", [GradeValue.num (PyFloat.fin 2), GradeValue.num (PyFloat.fin 3),
      GradeValue.num (PyFloat.fin 3)])]]).1
    [("Klausur", [GradeValue.num (PyFloat.fin 2), GradeValue.num (PyFloat.fin 3),
      GradeValue.num (PyFloat.fin 3)])] (by simp)
  rw [h]
  have hval : specValidValues
      [("Klausur", [GradeValue.num (PyFloat.fin 2), GradeValue.num (PyFloat.fin 3),
        GradeValue.num (PyFloat.fin 3)])] = [2, 3, 3] := by
    unfold specValidValues validGrade parse_german_grade gradeTruthy gradeNeZero
    norm_num [List.filterMap_cons, List.filterMap_nil]
  rw [hval]
  have hmean : specMean [(2 : ℚ), 3, 3] = 8/3 := by
    unfold specMean
    norm_num
  rw [if_neg (by simp), hmean]
  have hfloor : ⌊(100 : ℚ) * (8/3)⌋ = 266 := by
    rw [show (100 : ℚ) * (8/3) = 800/3 by norm_num]
    norm_num
  unfold round2 rhe
  rw [hfloor]
  norm_num

theorem isDig_toNat {c : Char} (h : isDig c = true) :
    48 ≤ c.toNat ∧ c.toNat ≤ 57 := by
  simpa [isDig] using h

theorem char_ne_of_toNat {c d : Char} (h : c.toNat ≠ d.toNat) : c ≠ d :=
  fun he => h (by rw [he])

theorem isDig_not_pyws {c : Char} (h : isDig c = true) : isPyWs c = false := by
  have := isDig_toNat h
  simp only [isPyWs]
  simp only [Bool.or_eq_false_iff, decide_eq_false_iff_not]
  omega

theorem toLower_of_small {c : Char} (h : c.toNat < 65) : c.toLower = c := by
  show (if c.toNat ≥ 65 ∧ c.toNat ≤ 90 then Char.ofNat (c.toNat + 32) else c) = c
  rw [if_neg (by omega)]

theorem dropWhile_eq_self_of_all {p : Char → Bool} (cs : List Char)
    (h : cs.all (fun c => !p c)) : cs.dropWhile p = cs := by
  cases cs with
  | nil => rfl
  | cons c t =>
    rw [List.all_cons, Bool.and_eq_true] at h
    have hc : p c = false := by simpa using h.1
    simp [List.dropWhile_cons, hc]

theorem stripWs_eq_self (cs : List Char) (h : cs.all (fun c => !isPyWs c)) :
    stripWs cs = cs := by
  unfold stripWs
  rw [dropWhile_eq_self_of_all cs h,
    dropWhile_eq_self_of_all cs.reverse (by simpa using h),
    List.reverse_reverse]

theorem all_not_pyws_of_digits (cs : List Char) (h : cs.all isDig) :
    cs.all (fun c => !isPyWs c) := by
  rw [List.all_eq_true] at h ⊢
  intro c hc
  simp [isDig_not_pyws (h c hc)]

theorem digVal_le_nine {c : Char} (h : isDig c = true) : digVal c ≤ 9 := by
  have := isDig_toNat h
  unfold digVal
  omega

theorem digitsToNat_go_lt (ds : List Char) (h : ds.all isDig) (acc : ℕ) :
    ds.foldl (fun a d => 10 * a + digVal d) acc < (acc + 1) * 10 ^ ds.length := by
  induction ds generalizing acc with
  | nil => simp
  | cons d t ih =>
    rw [List.all_cons, Bool.and_eq_true] at h
    have h9 := digVal_le_nine h.1
    have hih := ih h.2 (10 * acc + digVal d)
    rw [List.foldl_cons]
    calc t.foldl (fun a d => 10 * a + digVal d) (10 * acc + digVal d)
        < (10 * acc + digVal d + 1) * 10 ^ t.length := hih
      _ ≤ ((acc + 1) * 10) * 10 ^ t.length := by
          have : 10 * acc + digVal d + 1 ≤ (acc + 1) * 10 := by omega
          exact Nat.mul_le_mul_right _ this
      _ = (acc + 1) * 10 ^ (d :: t).length := by
          rw [List.length_cons, pow_succ]
          ring

theorem digitsToNat_lt (ds : List Char) (h : ds.all isDig) :
    digitsToNat ds < 10 ^ ds.length := by
  have := digitsToNat_go_lt ds h 0
  simpa [digitsToNat] using this

theorem matchesCI_head_ne (d : Char) (t : List Char) (p : Char)
    (ps : List Char) (h : (Char.toLower d).toNat ≠ p.toNat) :
    matchesCI (d :: t) (p :: ps) = false := by
  unfold matchesCI
  apply decide_eq_false
  intro hcon
  rw [List.map_cons] at hcon
  injection hcon with h1 _
  exact h (by rw [h1])

theorem digit_matchesCI_specials (d : Char) (t : List Char)
    (h : isDig d = true) :
    matchesCI (d :: t) "inf".data = false ∧
    matchesCI (d :: t) "infinity".data = false ∧
    matchesCI (d :: t) "nan".data = false := by
  have hn := isDig_toNat h
  have hlow : d.toLower = d := toLower_of_small (by omega)
  refine ⟨?_, ?_, ?_⟩ <;>
    apply matchesCI_head_ne <;> rw [hlow] <;>
    simp only [show ('i' : Char).toNat = 105 from rfl,
      show ('n' : Char).toNat = 110 from rfl] <;> omega

theorem takeWhile_digits_append (ds : List Char) (r : List Char)
    (h : ds.all isDig) (hr : ∀ c t, r = c :: t → isDig c = false) :
    List.takeWhile isDig (ds ++ r) = ds := by
  induction ds with
  | nil =>
    cases r with
    | nil => rfl
    | cons c t => simp [List.takeWhile_cons, hr c t rfl]
  | cons d dt ih =>
    rw [List.all_cons, Bool.and_eq_true] at h
    simp only [List.cons_append, List.takeWhile_cons, h.1, if_true]
    rw [ih h.2]

theorem dropWhile_digits_append (ds : List Char) (r : List Char)
    (h : ds.all isDig) (hr : ∀ c t, r = c :: t → isDig c = false) :
    List.dropWhile isDig (ds ++ r) = r := by
  induction ds with
  | nil =>
    cases r with
    | nil => rfl
    | cons c t => simp [List.dropWhile_cons, hr c t rfl]
  | cons d dt ih =>
    rw [List.all_cons, Bool.and_eq_true] at h
    simp only [List.cons_append, List.dropWhile_cons, h.1, if_true]
    exact ih h.2

theorem takeDigits_digits_append (ds : List Char) (r : List Char)
    (h : ds.all isDig) (hr : ∀ c t, r = c :: t → isDig c = false) :
    takeDigits (ds ++ r) = (ds, r) := by
  unfold takeDigits
  rw [takeWhile_digits_append ds r h hr, dropWhile_digits_append ds r h hr]

theorem pyFloat_digits (ds : List Char) (h1 : ds ≠ []) (h2 : ds.all isDig) :
    pyFloat (String.mk ds) = some (PyFloat.fin (digitsToNat ds)) := by
  obtain ⟨d, t, rfl⟩ := List.exists_cons_of_ne_nil h1
  rw [List.all_cons, Bool.and_eq_true] at h2
  have hd := h2.1
  have hdn := isDig_toNat hd
  have hplus : d ≠ '+' :=
    char_ne_of_toNat (by simp only [show ('+' : Char).toNat = 43 from rfl]; omega)
  have hminus : d ≠ '-' :=
    char_ne_of_toNat (by simp only [show ('-' : Char).toNat = 45 from rfl]; omega)
  have hspec := digit_matchesCI_specials d t hd
  have htake : takeDigits (d :: t) = (d :: t, []) :=
    takeDigits_all_digits _ (by rw [List.all_cons, Bool.and_eq_true]; exact h2)
  simp only [pyFloat]
  rw [stripWs_eq_self _ (all_not_pyws_of_digits _
    (by rw [List.all_cons, Bool.and_eq_true]; exact h2))]
  simp [hplus, hminus, hspec.1, hspec.2.1, hspec.2.2, parseDecimalCore, htake]
  rfl

theorem pyFloat_digit_dot (d : Char) (ds : List Char) (hd : isDig d = true)
    (hne : ds ≠ []) (hds : ds.all isDig) :
    pyFloat (String.mk (d :: '.' :: ds)) =
      some (PyFloat.fin ((digVal d : ℚ) +
        (digitsToNat ds : ℚ) / (10 : ℚ) ^ ds.length)) := by
  have hdn := isDig_toNat hd
  have hplus : d ≠ '+' :=
    char_ne_of_toNat (by simp only [show ('+' : Char).toNat = 43 from rfl]; omega)
  have hminus : d ≠ '-' :=
    char_ne_of_toNat (by simp only [show ('-' : Char).toNat = 45 from rfl]; omega)
  have hspec := digit_matchesCI_specials d ('.' :: ds) hd
  have hallnw : (d :: '.' :: ds).all (fun c => !isPyWs c) := by
    rw [List.all_cons, List.all_cons, Bool.and_eq_true, Bool.and_eq_true]
    exact ⟨by simp [isDig_not_pyws hd], by decide,
      all_not_pyws_of_digits ds hds⟩
  have htake1 : takeDigits (d :: '.' :: ds) = ([d], '.' :: ds) := by
    have := takeDigits_digits_append [d] ('.' :: ds)
      (by rw [List.all_cons]; simp [hd])
      (by intro c t hct; injection hct with hc _; rw [← hc]; decide)
    simpa using this
  have htake2 : takeDigits ds = (ds, []) := takeDigits_all_digits ds hds
  simp only [pyFloat]
  rw [stripWs_eq_self _ hallnw]
  simp [hplus, hminus, hspec.1, hspec.2.1, hspec.2.2, parseDecimalCore,
    htake1, htake2, hne, digitsToNat]

theorem pyFloat_digit_sign_none (e sgn : Char) (he : isDig e = true)
    (hs : sgn = '+' ∨ sgn = '-') : pyFloat (String.mk [e, sgn]) = none := by
  have hen := isDig_toNat he
  have heplus : e ≠ '+' :=
    char_ne_of_toNat (by simp only [show ('+' : Char).toNat = 43 from rfl]; omega)
  have heminus : e ≠ '-' :=
    char_ne_of_toNat (by simp only [show ('-' : Char).toNat = 45 from rfl]; omega)
  have key : ∀ s2 : Char, s2.toNat = 43 ∨ s2.toNat = 45 →
      pyFloat (String.mk [e, s2]) = none := by
    intro s2 hs2
    have hspec := digit_matchesCI_specials e [s2] he
    have hs2dig : isDig s2 = false := by
      simp only [isDig, Bool.and_eq_false_iff, decide_eq_false_iff_not]
      omega
    have hs2dot : s2 ≠ '.' :=
      char_ne_of_toNat (by simp only [show ('.' : Char).toNat = 46 from rfl]; omega)
    have hs2e : s2 ≠ 'e' :=
      char_ne_of_toNat (by simp only [show ('e' : Char).toNat = 101 from rfl]; omega)
    have hs2E : s2 ≠ 'E' :=
      char_ne_of_toNat (by simp only [show ('E' : Char).toNat = 69 from rfl]; omega)
    have htake : takeDigits [e, s2] = ([e], [s2]) := by
      have := takeDigits_digits_append [e] [s2]
        (by rw [List.all_cons]; simp [he])
        (by intro c t hct; injection hct with hc _; rw [← hc]; exact hs2dig)
      simpa using this
    have hstrip : stripWs [e, s2] = [e, s2] := by
      apply stripWs_eq_self
      rw [List.all_cons, Bool.and_eq_true]
      refine ⟨by simp [isDig_not_pyws he], ?_⟩
      simp only [List.all_cons, List.all_nil, Bool.and_true, Bool.not_eq_true']
      simp only [isPyWs, Bool.or_eq_false_iff, decide_eq_false_iff_not]
      omega
    simp [pyFloat, hstrip, heplus, heminus, hspec.1, hspec.2.1, hspec.2.2,
      parseDecimalCore, htake, hs2dot, hs2e, hs2E]
  rcases hs with rfl | rfl
  · exact key '+' (Or.inl rfl)
  · exact key '-' (Or.inr rfl)

theorem contains_tilde_false (cs : List Char)
    (h : ∀ c ∈ cs, c.toNat ≠ 126) : cs.contains '~' = false := by
  induction cs with
  | nil => rfl
  | cons c t ih =>
    have hc : c ≠ '~' :=
      char_ne_of_toNat (by
        simp only [show ('~' : Char).toNat = 126 from rfl]
        exact h c (List.mem_cons_self c t))
    simp only [List.contains_cons]
    rw [ih (fun x hx => h x (List.mem_cons_of_mem c hx))]
    simp [Ne.symm hc]

theorem pyFloat_letters_none (cs : List Char) (hne : cs ≠ [])
    (hall : cs.all specLetterChar = true)
    (hi : matchesCI cs "inf".data = false)
    (hif : matchesCI cs "infinity".data = false)
    (hn : matchesCI cs "nan".data = false) :
    pyFloat (String.mk cs) = none := by
  obtain ⟨d, t, rfl⟩ := List.exists_cons_of_ne_nil hne
  have hdl : specLetterChar d = true := by
    rw [List.all_cons, Bool.and_eq_true] at hall
    exact hall.1
  have hdn : (65 ≤ d.toNat ∧ d.toNat ≤ 90) ∨ (97 ≤ d.toNat ∧ d.toNat ≤ 122) := by
    simpa [specLetterChar] using hdl
  have hplus : d ≠ '+' :=
    char_ne_of_toNat (by simp only [show ('+' : Char).toNat = 43 from rfl]; omega)
  have hminus : d ≠ '-' :=
    char_ne_of_toNat (by simp only [show ('-' : Char).toNat = 45 from rfl]; omega)
  have hddig : isDig d = false := by
    simp only [isDig, Bool.and_eq_false_iff, decide_eq_false_iff_not]
    omega
  have hddot : d ≠ '.' :=
    char_ne_of_toNat (by simp only [show ('.' : Char).toNat = 46 from rfl]; omega)
  have hstrip : stripWs (d :: t) = d :: t := by
    apply stripWs_eq_self
    rw [List.all_eq_true] at hall ⊢
    intro c hc
    have := hall c hc
    simp only [specLetterChar, Bool.or_eq_true, Bool.and_eq_true,
      decide_eq_true_eq] at this
    simp only [isPyWs, Bool.not_eq_true', Bool.or_eq_false_iff,
      decide_eq_false_iff_not]
    omega
  simp [pyFloat, hstrip, hplus, hminus, hi, hif, hn, parseDecimalCore,
    takeDigits, List.takeWhile_cons, List.dropWhile_cons, hddig, hddot]

theorem parse_grade_plain_digits (ds : List Char) (hne : ds ≠ [])
    (h : ds.all isDig) :
    parse_german_grade (.str (String.mk ds)) =
      some (PyFloat.fin (digitsToNat ds)) := by
  obtain ⟨d, t, rfl⟩ := List.exists_cons_of_ne_nil hne
  have hall := h
  rw [List.all_cons, Bool.and_eq_true] at h
  have hd := h.1
  have hdn := isDig_toNat hd
  have hstrip : stripWs (d :: t) = d :: t :=
    stripWs_eq_self _ (all_not_pyws_of_digits _ hall)
  have hnt : (d :: t).contains '~' = false := by
    apply contains_tilde_false
    intro c hc
    rw [List.all_eq_true] at hall
    have := isDig_toNat (hall c hc)
    omega
  have hlv : (d :: t).getLast? = some ((d :: t).getLast (by simp)) :=
    List.getLast?_eq_getLast _ _
  have hl : (d :: t).getLast (by simp) ≠ '+' ∧
      (d :: t).getLast (by simp) ≠ '-' := by
    have hcm : (d :: t).getLast (by simp) ∈ d :: t := List.getLast_mem _
    rw [List.all_eq_true] at hall
    have := isDig_toNat (hall _ hcm)
    constructor <;> apply char_ne_of_toNat
    · simp only [show ('+' : Char).toNat = 43 from rfl]; omega
    · simp only [show ('-' : Char).toNat = 45 from rfl]; omega
  have hni : '~' ∉ d :: t := by
    intro hm
    rw [List.all_eq_true] at hall
    have := isDig_toNat (hall _ hm)
    rw [show ('~' : Char).toNat = 126 from rfl] at this
    omega
  have hres : parse_german_grade (.str (String.mk (d :: t))) =
      pyFloat (String.mk (d :: t)) := by
    simp only [parse_german_grade, gradeTruthy, gradeNeZero]
    simp [hstrip, hnt, hlv, hl.1, hl.2, List.mem_cons.not.mp hni]
  rw [hres]
  exact pyFloat_digits (d :: t) (by simp) hall

theorem contains_eq_false_of_not_mem {cs : List Char} {a : Char}
    (h : a ∉ cs) : cs.contains a = false := by
  rw [Bool.eq_false_iff]
  intro hcon
  exact h (List.elem_iff.mp hcon)

theorem parse_route (cs : List Char) (hne : cs ≠ [])
    (hnw : cs.all (fun c => !isPyWs c)) (hni : '~' ∉ cs)
    (hlp : cs.getLast hne ≠ '+') (hlm : cs.getLast hne ≠ '-') :
    parse_german_grade (.str (String.mk cs)) = pyFloat (String.mk cs) := by
  obtain ⟨d, t, rfl⟩ := List.exists_cons_of_ne_nil hne
  have hstrip : stripWs (d :: t) = d :: t := stripWs_eq_self _ hnw
  have hnt : (d :: t).contains '~' = false := contains_eq_false_of_not_mem hni
  have hlv : (d :: t).getLast? = some ((d :: t).getLast (by simp)) :=
    List.getLast?_eq_getLast _ _
  simp only [parse_german_grade, gradeTruthy, gradeNeZero]
  simp [hstrip, hnt, hlv, hlp, hlm, List.mem_cons.not.mp hni]

theorem parse_tilde_route (cs : List Char) (hne : cs ≠ [])
    (hnw : cs.all (fun c => !isPyWs c)) (hmem : '~' ∈ cs) :
    parse_german_grade (.str (String.mk cs)) =
      pyFloat (String.mk (afterFirstTilde cs)) := by
  obtain ⟨d, t, rfl⟩ := List.exists_cons_of_ne_nil hne
  have hstrip : stripWs (d :: t) = d :: t := stripWs_eq_self _ hnw
  simp only [parse_german_grade, gradeTruthy, gradeNeZero]
  simp [hstrip, List.mem_cons.mp hmem]

theorem afterFirstTilde_cons_ne (d : Char) (t : List Char) (hd : d ≠ '~') :
    afterFirstTilde (d :: t) = afterFirstTilde t := by
  unfold afterFirstTilde
  simp [List.dropWhile_cons, hd]

theorem afterFirstTilde_tilde (t : List Char) :
    afterFirstTilde ('~' :: t) = t.takeWhile (· ≠ '~') := by
  unfold afterFirstTilde
  simp [List.dropWhile_cons]

theorem digitsToNat_single (d : Char) : digitsToNat [d] = digVal d := by
  simp [digitsToNat]

theorem parse_grade_signed (d sgn : Char) (hd : isDig d = true)
    (hs : sgn = '+' ∨ sgn = '-') :
    parse_german_grade (.str (String.mk [d, sgn])) =
      some (PyFloat.fin (digVal d)) := by
  have hdn := isDig_toNat hd
  have hs2n : sgn.toNat = 43 ∨ sgn.toNat = 45 := by
    rcases hs with rfl | rfl <;> simp
  have hs2w : isPyWs sgn = false := by
    simp only [isPyWs, Bool.or_eq_false_iff, decide_eq_false_iff_not]
    omega
  have hstrip : stripWs [d, sgn] = [d, sgn] := by
    apply stripWs_eq_self
    rw [List.all_cons, Bool.and_eq_true]
    exact ⟨by simp [isDig_not_pyws hd], by simp [List.all_cons, hs2w]⟩
  have hni : ('~' : Char) ∉ [d, sgn] := by
    intro hm
    rcases List.mem_cons.mp hm with h1 | h2
    · have := congrArg Char.toNat h1
      rw [show ('~' : Char).toNat = 126 from rfl] at this
      omega
    · simp only [List.mem_singleton] at h2
      have := congrArg Char.toNat h2
      rw [show ('~' : Char).toNat = 126 from rfl] at this
      omega
  have hcond : (decide ((some sgn : Option Char) = some '+') ||
      decide ((some sgn : Option Char) = some '-')) = true := by
    rcases hs with rfl | rfl <;> simp
  simp only [parse_german_grade, gradeTruthy, gradeNeZero]
  simp [hstrip, List.mem_cons.not.mp hni, hcond]
  rw [pyFloat_digits [d] (by simp) (by simp [hd]), digitsToNat_single]
  have hn2 : ¬('~' = d ∨ '~' = sgn) := by
    rintro (h1 | h2)
    · have := congrArg Char.toNat h1
      rw [show ('~' : Char).toNat = 126 from rfl] at this
      omega
    · have := congrArg Char.toNat h2
      rw [show ('~' : Char).toNat = 126 from rfl] at this
      omega
  rw [if_neg hn2, if_pos hs]

theorem parse_grade_tilde (d e : Char) (hd : isDig d = true)
    (he : isDig e = true) :
    parse_german_grade (.str (String.mk [d, '~', e])) =
      some (PyFloat.fin (digVal e)) := by
  have hdn := isDig_toNat hd
  have hen := isDig_toNat he
  have hdne : d ≠ '~' :=
    char_ne_of_toNat (by rw [show ('~' : Char).toNat = 126 from rfl]; omega)
  have hene : e ≠ '~' :=
    char_ne_of_toNat (by rw [show ('~' : Char).toNat = 126 from rfl]; omega)
  have hnw : ([d, '~', e]).all (fun c => !isPyWs c) := by
    rw [List.all_cons, List.all_cons, Bool.and_eq_true, Bool.and_eq_true]
    exact ⟨by simp [isDig_not_pyws hd], by decide,
      by simp [List.all_cons, isDig_not_pyws he]⟩
  rw [parse_tilde_route [d, '~', e] (by simp) hnw
    (List.mem_cons_of_mem d (List.mem_cons_self '~' [e]))]
  rw [afterFirstTilde_cons_ne d _ hdne, afterFirstTilde_tilde]
  rw [List.takeWhile_cons, if_pos (by simp [hene])]
  simp only [List.takeWhile_nil]
  rw [pyFloat_digits [e] (by simp) (by simp [he]), digitsToNat_single]

theorem parse_grade_tilde_signed (d e sgn : Char) (hd : isDig d = true)
    (he : isDig e = true) (hs : sgn = '+' ∨ sgn = '-') :
    parse_german_grade (.str (String.mk [d, '~', e, sgn])) = none := by
  have hdn := isDig_toNat hd
  have hen := isDig_toNat he
  have hdne : d ≠ '~' :=
    char_ne_of_toNat (by rw [show ('~' : Char).toNat = 126 from rfl]; omega)
  have hene : e ≠ '~' :=
    char_ne_of_toNat (by rw [show ('~' : Char).toNat = 126 from rfl]; omega)
  have hsne : sgn ≠ '~' := by
    rcases hs with rfl | rfl <;> decide
  have hsnw : isPyWs sgn = false := by
    rcases hs with rfl | rfl <;> decide
  have hnw : ([d, '~', e, sgn]).all (fun c => !isPyWs c) := by
    rw [List.all_cons, List.all_cons, List.all_cons, Bool.and_eq_true,
      Bool.and_eq_true, Bool.and_eq_true]
    exact ⟨by simp [isDig_not_pyws hd], by decide,
      by simp [isDig_not_pyws he], by simp [List.all_cons, hsnw]⟩
  rw [parse_tilde_route [d, '~', e, sgn] (by simp) hnw
    (List.mem_cons_of_mem d (List.mem_cons_self '~' [e, sgn]))]
  rw [afterFirstTilde_cons_ne d _ hdne, afterFirstTilde_tilde]
  rw [List.takeWhile_cons, if_pos (by simp [hene]),
    List.takeWhile_cons, if_pos (by simp [hsne])]
  simp only [List.takeWhile_nil]
  exact pyFloat_digit_sign_none e sgn he hs

theorem parse_grade_double_tilde (d e f : Char) (hd : isDig d = true)
    (he : isDig e = true) (hf : isDig f = true) :
    parse_german_grade (.str (String.mk [d, '~', e, '~', f])) =
      some (PyFloat.fin (digVal e)) := by
  have hdn := isDig_toNat hd
  have hen := isDig_toNat he
  have hfn := isDig_toNat hf
  have hdne : d ≠ '~' :=
    char_ne_of_toNat (by rw [show ('~' : Char).toNat = 126 from rfl]; omega)
  have hene : e ≠ '~' :=
    char_ne_of_toNat (by rw [show ('~' : Char).toNat = 126 from rfl]; omega)
  have hnw : ([d, '~', e, '~', f]).all (fun c => !isPyWs c) := by
    rw [List.all_cons, List.all_cons, List.all_cons, List.all_cons,
      Bool.and_eq_true, Bool.and_eq_true, Bool.and_eq_true, Bool.and_eq_true]
    exact ⟨by simp [isDig_not_pyws hd], by decide,
      by simp [isDig_not_pyws he], by decide,
      by simp [List.all_cons, isDig_not_pyws hf]⟩
  rw [parse_tilde_route [d, '~', e, '~', f] (by simp) hnw
    (List.mem_cons_of_mem d (List.mem_cons_self '~' [e, '~', f]))]
  rw [afterFirstTilde_cons_ne d _ hdne, afterFirstTilde_tilde]
  rw [List.takeWhile_cons, if_pos (by simp [hene]),
    List.takeWhile_cons, if_neg (by simp)]
  rw [pyFloat_digits [e] (by simp) (by simp [he]), digitsToNat_single]

theorem parse_grade_dot (d : Char) (ds : List Char) (hd : isDig d = true)
    (hne : ds ≠ []) (hds : ds.all isDig) :
    parse_german_grade (.str (String.mk (d :: '.' :: ds))) =
      some (PyFloat.fin ((digVal d : ℚ) +
        (digitsToNat ds : ℚ) / (10 : ℚ) ^ ds.length)) := by
  have hdn := isDig_toNat hd
  have hnw : (d :: '.' :: ds).all (fun c => !isPyWs c) := by
    rw [List.all_cons, List.all_cons, Bool.and_eq_true, Bool.and_eq_true]
    exact ⟨by simp [isDig_not_pyws hd], by decide,
      all_not_pyws_of_digits ds hds⟩
  have hmemN : ∀ c ∈ d :: '.' :: ds, 46 ≤ c.toNat ∧ c.toNat ≤ 57 := by
    intro c hc
    rcases List.mem_cons.mp hc with rfl | hc2
    · omega
    · rcases List.mem_cons.mp hc2 with rfl | hc3
      · simp
      · rw [List.all_eq_true] at hds
        have := isDig_toNat (hds c hc3)
        omega
  have hni : ('~' : Char) ∉ d :: '.' :: ds := by
    intro hm
    have := hmemN _ hm
    rw [show ('~' : Char).toNat = 126 from rfl] at this
    omega
  have hlmem := List.getLast_mem (l := d :: '.' :: ds) (by simp)
  have hlN := hmemN _ hlmem
  rw [parse_route (d :: '.' :: ds) (by simp) hnw hni
    (char_ne_of_toNat (by rw [show ('+' : Char).toNat = 43 from rfl]; omega))
    (char_ne_of_toNat (by rw [show ('-' : Char).toNat = 45 from rfl]; omega))]
  exact pyFloat_digit_dot d ds hd hne hds

theorem parse_grade_letters (cs : List Char) (hne : cs ≠ [])
    (hall : cs.all specLetterChar = true)
    (hi : matchesCI cs "inf".data = false)
    (hif : matchesCI cs "infinity".data = false)
    (hn : matchesCI cs "nan".data = false) :
    parse_german_grade (.str (String.mk cs)) = none := by
  have hmemN : ∀ c ∈ cs, (65 ≤ c.toNat ∧ c.toNat ≤ 90) ∨
      (97 ≤ c.toNat ∧ c.toNat ≤ 122) := by
    intro c hc
    rw [List.all_eq_true] at hall
    simpa [specLetterChar] using hall c hc
  have hnw : cs.all (fun c => !isPyWs c) := by
    rw [List.all_eq_true]
    intro c hc
    have := hmemN c hc
    simp only [Bool.not_eq_true', isPyWs, Bool.or_eq_false_iff,
      decide_eq_false_iff_not]
    omega
  have hni : ('~' : Char) ∉ cs := by
    intro hm
    have := hmemN _ hm
    rw [show ('~' : Char).toNat = 126 from rfl] at this
    omega
  have hlmem := List.getLast_mem (l := cs) hne
  have hlN := hmemN _ hlmem
  rw [parse_route cs hne hnw hni
    (char_ne_of_toNat (by rw [show ('+' : Char).toNat = 43 from rfl]; omega))
    (char_ne_of_toNat (by rw [show ('-' : Char).toNat = 45 from rfl]; omega))]
  exact pyFloat_letters_none cs hne hall hi hif hn

/-- C1 counterexample: "0~3+" matches the spec's third grade regex
`^\d~\d[+-]?$`, but the parser returns None rather than a float in
[1.0, 6.0]: the code parses the substring after '~' directly as a
float without stripping the trailing sign. -/
theorem c1_counterexample :
    specPatTilde "0~3+".data = true ∧
    parse_german_grade (.str "0~3+") = none := by
  constructor
  · decide
  · decide

/-- C1 amended: for `^\d(\.\d+)?$` strings the parser returns the
decimal's exact value v with leading-digit ≤ v < leading-digit + 1
(so v lies in [1.0, 6.0] only when digit and value do); for `^\d[+-]$`
it strips the sign and returns the digit; for `^\d~\d$` it returns the
digit after the tilde; for `^\d~\d[+-]$` it returns None, because a
sign after the tilde part is not stripped; a string with two tildes
parses the field between them instead of being rejected; the empty
string and a missing value give None; and letter-only strings other
than the float literals inf/infinity/nan give None. -/
theorem c1_parse_german_grade (s : String) (d e f sgn : Char) :
    (specPatPlain s.data = true →
      parse_german_grade (.str s) = some (PyFloat.fin (specPlainVal s.data)) ∧
      ∃ d0 t0, s.data = d0 :: t0 ∧ isDig d0 = true ∧
        (digVal d0 : ℚ) ≤ specPlainVal s.data ∧
        specPlainVal s.data < (digVal d0 : ℚ) + 1) ∧
    (isDig d = true → sgn = '+' ∨ sgn = '-' →
      parse_german_grade (.str (String.mk [d, sgn])) =
        some (PyFloat.fin (digVal d))) ∧
    (isDig d = true → isDig e = true →
      parse_german_grade (.str (String.mk [d, '~', e])) =
        some (PyFloat.fin (digVal e))) ∧
    (isDig d = true → isDig e = true → sgn = '+' ∨ sgn = '-' →
      parse_german_grade (.str (String.mk [d, '~', e, sgn])) = none) ∧
    (isDig d = true → isDig e = true → isDig f = true →
      parse_german_grade (.str (String.mk [d, '~', e, '~', f])) =
        some (PyFloat.fin (digVal e))) ∧
    parse_german_grade (.str "") = none ∧
    parse_german_grade .pynone = none ∧
    (s.data ≠ [] → s.data.all specLetterChar = true →
      matchesCI s.data "inf".data = false →
      matchesCI s.data "infinity".data = false →
      matchesCI s.data "nan".data = false →
      parse_german_grade (.str s) = none) := by
  obtain ⟨sdata⟩ := s
  refine ⟨?_, parse_grade_signed d sgn, parse_grade_tilde d e,
    parse_grade_tilde_signed d e sgn, parse_grade_double_tilde d e f,
    by decide, rfl, parse_grade_letters sdata⟩
  intro h
  cases sdata with
  | nil => simp [specPatPlain] at h
  | cons d0 rest =>
    unfold specPatPlain at h
    rw [Bool.and_eq_true] at h
    obtain ⟨hd0, hrest⟩ := h
    cases rest with
    | nil =>
      refine ⟨?_, d0, [], rfl, hd0, ?_, ?_⟩
      · rw [parse_grade_plain_digits [d0] (by simp) (by simp [hd0])]
        simp [specPlainVal, digitsToNat_single]
      · exact le_refl _
      · exact lt_add_one _
    | cons dot ds =>
      simp only [Bool.and_eq_true, decide_eq_true_eq, Bool.not_eq_true'] at hrest
      obtain ⟨⟨hdot, hne'⟩, hall⟩ := hrest
      subst hdot
      have hnenil : ds ≠ [] := by
        intro hcon
        rw [hcon] at hne'
        simp at hne'
      have hfraclt : (digitsToNat ds : ℚ) / (10 : ℚ) ^ ds.length < 1 := by
        rw [div_lt_one (by positivity)]
        exact_mod_cast digitsToNat_lt ds hall
      have hfracge : (0 : ℚ) ≤ (digitsToNat ds : ℚ) / (10 : ℚ) ^ ds.length := by
        positivity
      refine ⟨?_, d0, '.' :: ds, rfl, hd0, ?_, ?_⟩
      · rw [parse_grade_dot d0 ds hd0 hnenil hall]
        rfl
      · show (digVal d0 : ℚ) ≤ (digVal d0 : ℚ) +
          (digitsToNat ds : ℚ) / (10 : ℚ) ^ ds.length
        linarith
      · show (digVal d0 : ℚ) + (digitsToNat ds : ℚ) / (10 : ℚ) ^ ds.length <
          (digVal d0 : ℚ) + 1
        linarith

/-- C1 witness. -/
theorem c1_parse_german_grade_witness :
    parse_german_grade (.str "2.5") =
      some (PyFloat.fin (specPlainVal "2.5".data)) ∧
    parse_german_grade (.str (String.mk ['4', '-'])) =
      some (PyFloat.fin (digVal '4')) ∧
    parse_german_grade (.str (String.mk ['0', '~', '3'])) =
      some (PyFloat.fin (digVal '3')) ∧
    parse_german_grade (.str (String.mk ['0', '~', '3', '+'])) = none ∧
    parse_german_grade (.str (String.mk ['1', '~', '2', '~', '3'])) =
      some (PyFloat.fin (digVal '2')) ∧
    parse_german_grade (.str "abc") = none := by
  have h1 := c1_parse_german_grade "2.5" '4' '3' '2' '-'
  have h2 := c1_parse_german_grade "abc" '0' '3' '3' '+'
  have h3 := c1_parse_german_grade "2.5" '1' '2' '3' '+'
  exact ⟨(h1.1 (by decide)).1,
    h1.2.1 (by decide) (Or.inr rfl),
    h2.2.2.1 (by decide) (by decide),
    h2.2.2.2.1 (by decide) (by decide) (Or.inl rfl),
    h3.2.2.2.2.1 (by decide) (by decide) (by decide),
    h2.2.2.2.2.2.2.2 (by decide) (by decide) (by decide) (by decide) (by decide)⟩

theorem grabHex10_spec {hex : Char → Bool} {cs cap r : List Char}
    (h : grabHex10 hex cs = some (cap, r)) :
    cap.length = 10 ∧ cap.all hex = true := by
  simp only [grabHex10] at h
  split at h
  case isTrue hg =>
    rw [Bool.and_eq_true] at hg
    injection h with h1
    injection h1 with h2 h3
    subst h2
    exact ⟨by simpa using hg.1, hg.2⟩
  case isFalse => cases h

theorem quotedHex10_spec {hex : Char → Bool} {cs cap : List Char}
    (h : quotedHex10 hex cs = some cap) :
    cap.length = 10 ∧ cap.all hex = true := by
  cases cs with
  | nil => exact Option.noConfusion h
  | cons q r =>
    simp only [quotedHex10] at h
    split at h
    case isTrue =>
      cases hg : grabHex10 hex r with
      | none => rw [hg] at h; exact Option.noConfusion h
      | some pr =>
        obtain ⟨cap0, r2⟩ := pr
        rw [hg] at h
        cases r2 with
        | nil =>
          have h2 : (none : Option (List Char)) = some cap := h
          exact Option.noConfusion h2
        | cons q2 t2 =>
          have h2 : (if isQuote q2 = true then some cap0 else none) =
              some cap := h
          split at h2
          · injection h2 with h1
            subst h1
            exact grabHex10_spec hg
          · exact Option.noConfusion h2
    case isFalse => exact Option.noConfusion h

theorem searchSuffixes_spec {ρ : Type} (f : List Char → Option ρ)
    (P : ρ → Prop) (hf : ∀ t r, f t = some r → P r) :
    ∀ cs r, searchSuffixes f cs = some r → P r := by
  intro cs
  induction cs with
  | nil =>
    intro r h
    unfold searchSuffixes at h
    exact hf [] r h
  | cons c t ih =>
    intro r h
    unfold searchSuffixes at h
    split at h
    · next heq => injection h with h1; subst h1; exact hf _ _ heq
    · exact ih r h

theorem searchWithPrev_spec {ρ : Type} (f : Option Char → List Char → Option ρ)
    (P : ρ → Prop) (hf : ∀ prev t r, f prev t = some r → P r) :
    ∀ prev cs r, searchWithPrev f prev cs = some r → P r := by
  intro prev cs
  induction cs generalizing prev with
  | nil =>
    intro r h
    unfold searchWithPrev at h
    exact hf prev [] r h
  | cons c t ih =>
    intro r h
    unfold searchWithPrev at h
    split at h
    · next heq => injection h with h1; subst h1; exact hf _ _ _ heq
    · exact ih (some c) r h

theorem findSome?_forall {α β : Type} (f : α → Option β) (P : β → Prop)
    (hf : ∀ a r, f a = some r → P r) :
    ∀ (l : List α) (r : β), l.findSome? f = some r → P r := by
  intro l
  induction l with
  | nil => intro r h; cases h
  | cons a t ih =>
    intro r h
    rw [List.findSome?_cons] at h
    cases hfa : f a with
    | some b => rw [hfa] at h; injection h with h1; subst h1; exact hf a _ hfa
    | none => rw [hfa] at h; exact ih r h

theorem findSome?_decomp {α β : Type} (f : α → Option β) :
    ∀ (l : List α) (r : β), l.findSome? f = some r →
      ∃ pre a rest, l = pre ++ a :: rest ∧ (∀ x ∈ pre, f x = none) ∧
        f a = some r := by
  intro l
  induction l with
  | nil => intro r h; cases h
  | cons a t ih =>
    intro r h
    rw [List.findSome?_cons] at h
    cases hfa : f a with
    | some b =>
      rw [hfa] at h
      injection h with h1
      subst h1
      exact ⟨[], a, t, rfl, by simp, hfa⟩
    | none =>
      rw [hfa] at h
      obtain ⟨pre, x, rest, hl, hpre, hx⟩ := ih r h
      exact ⟨a :: pre, x, rest, by rw [hl]; rfl, by
        intro y hy
        rcases List.mem_cons.mp hy with rfl | hy2
        · exact hfa
        · exact hpre y hy2, hx⟩

theorem findSome?_none {α β : Type} (f : α → Option β) (l : List α)
    (h : ∀ a ∈ l, f a = none) : l.findSome? f = none := by
  induction l with
  | nil => rfl
  | cons a t ih =>
    rw [List.findSome?_cons, h a (List.mem_cons_self a t)]
    exact ih (fun x hx => h x (List.mem_cons_of_mem a hx))

theorem litAt_spec {cs cap : List Char} (h : litAt cs = some cap) :
    cap.length = 10 ∧ cap.all isHexCI = true := by
  unfold litAt at h
  split at h
  · cases h
  · split at h
    · exact quotedHex10_spec h
    · cases h

theorem isHexLower_to_CI {c : Char} (h : isHexLower c = true) :
    isHexCI c = true := by
  simp only [isHexLower, Bool.or_eq_true, Bool.and_eq_true,
    decide_eq_true_eq] at h
  simp only [isHexCI, isDig, Bool.or_eq_true, Bool.and_eq_true,
    decide_eq_true_eq]
  simp only [isDig, Bool.and_eq_true, decide_eq_true_eq] at h
  tauto

theorem defAt_spec {ident : List Char} {prev : Option Char}
    {cs cap : List Char} (h : defAt ident prev cs = some cap) :
    cap.length = 10 ∧ cap.all isHexCI = true := by
  unfold defAt at h
  split at h
  · exact Option.noConfusion h
  · cases hkw : (match stripPrefixEx "const".data cs with
      | some r => some r
      | none =>
        match stripPrefixEx "let".data cs with
        | some r => some r
        | none => stripPrefixEx "var".data cs) with
    | none => rw [hkw] at h; exact Option.noConfusion h
    | some r0 =>
      rw [hkw] at h
      cases r0 with
      | nil =>
        have h2 : (none : Option (List Char)) = some cap := h
        exact Option.noConfusion h2
      | cons w r1 =>
        have h2 : (if isReWs w = true then
            (match stripPrefixEx ident (r1.dropWhile isReWs) with
             | none => none
             | some r3 =>
               match r3.dropWhile isReWs with
               | '=' :: r4 => quotedHex10 isHexLower (r4.dropWhile isReWs)
               | _ => none) else none) = some cap := h
        split at h2
        · cases hs : stripPrefixEx ident (r1.dropWhile isReWs) with
          | none =>
            rw [hs] at h2
            have h3 : (none : Option (List Char)) = some cap := h2
            exact Option.noConfusion h3
          | some r3 =>
            rw [hs] at h2
            have h3 : (match r3.dropWhile isReWs with
                | '=' :: r4 => quotedHex10 isHexLower (r4.dropWhile isReWs)
                | _ => none) = some cap := h2
            split at h3
            · have hq := quotedHex10_spec h3
              refine ⟨hq.1, ?_⟩
              have h4 := hq.2
              rw [List.all_eq_true] at h4 ⊢
              intro c hc
              exact isHexLower_to_CI (h4 c hc)
            · exact Option.noConfusion h3
        · exact Option.noConfusion h2

theorem nearAt_spec {cs cap : List Char} (h : nearAt cs = some cap) :
    cap.length = 10 ∧ cap.all isHexCI = true := by
  unfold nearAt at h
  cases hp : stripPrefixCI "bundleversion".data cs with
  | none => rw [hp] at h; exact Option.noConfusion h
  | some r0 =>
    rw [hp] at h
    exact findSome?_forall (fun k => quotedHex10 isHexCI (r0.drop k))
      (fun cap => cap.length = 10 ∧ cap.all isHexCI = true)
      (fun k r hk => quotedHex10_spec hk) _ _ h

theorem scanScript_spec {js : String} {v : String}
    (h : scanScript js = some v) :
    v.length = 10 ∧ v.data.all isHexCI = true := by
  unfold scanScript at h
  split at h
  · next heq =>
    injection h with h1
    subst h1
    exact searchSuffixes_spec litAt _ (fun t r ht => litAt_spec ht) _ _ heq
  · split at h
    · next heq =>
      injection h with h1
      subst h1
      unfold identStrategy at heq
      split at heq
      · exact searchWithPrev_spec _ _ (fun p t r ht => defAt_spec ht)
          _ _ _ heq
      · cases heq
    · cases hn : nearSearch js.data with
      | none => rw [hn] at h; cases h
      | some w =>
        rw [hn] at h
        injection h with h1
        subst h1
        exact searchSuffixes_spec nearAt _ (fun t r ht => nearAt_spec ht)
          _ _ hn

/-- C4 counterexample: a script holding an uppercase-hex literal is
matched (the literal regex carries re.IGNORECASE), so the returned
version is not a lowercase hex string as the claim requires. -/
theorem c4_counterexample :
    discover_bundle_version
        [some "bundleVersion:\x22ABCDEF0123\x22"] = some "ABCDEF0123" ∧
    "ABCDEF0123".data.all isHexLower = false := by
  constructor
  · decide
  · decide

/-- C4 amended: discovery scans the fetched scripts in order, skipping
those whose fetch raised; within a script the literal, identifier and
proximity strategies apply in that fixed order, the first hit winning;
every returned version is a 10-character hex string whose characters
are matched case-insensitively (0-9, a-f or A-F, not necessarily
lowercase); the first script with any hit determines the result; and
if no script yields a hit under any strategy the discovery returns
not-found. -/
theorem c4_discover_bundle_version (scripts : List (Option String))
    (v : String) :
    (discover_bundle_version scripts = some v →
      (v.length = 10 ∧ v.data.all isHexCI = true) ∧
      ∃ pre js rest, scripts = pre ++ some js :: rest ∧
        (∀ o ∈ pre, o.bind scanScript = none) ∧ scanScript js = some v) ∧
    (∀ js : String, scanScript js = some v →
      (literalSearch js.data = some v.data ∨
       (literalSearch js.data = none ∧ identStrategy js.data = some v.data) ∨
       (literalSearch js.data = none ∧ identStrategy js.data = none ∧
         nearSearch js.data = some v.data))) ∧
    ((∀ o ∈ scripts, o.bind scanScript = none) →
      discover_bundle_version scripts = none) := by
  refine ⟨?_, ?_, ?_⟩
  · intro h
    obtain ⟨pre, a, rest, hl, hpre, ha⟩ :=
      findSome?_decomp (fun (o : Option String) => o.bind scanScript)
        scripts v h
    cases a with
    | none => cases ha
    | some js =>
      have hsc : scanScript js = some v := ha
      exact ⟨scanScript_spec hsc, pre, js, rest, hl, hpre, hsc⟩
  · intro js h
    unfold scanScript at h
    split at h
    · next heq =>
      injection h with h1
      subst h1
      exact Or.inl heq
    · next heq =>
      split at h
      · next heq2 =>
        injection h with h1
        subst h1
        exact Or.inr (Or.inl ⟨heq, heq2⟩)
      · next heq2 =>
        cases hn : nearSearch js.data with
        | none => rw [hn] at h; cases h
        | some w =>
          rw [hn] at h
          injection h with h1
          subst h1
          exact Or.inr (Or.inr ⟨heq, heq2, rfl⟩)
  · intro hall
    exact findSome?_none (fun (o : Option String) => o.bind scanScript)
      scripts hall

/-- C4 witness. -/
theorem c4_discover_bundle_version_witness :
    (discover_bundle_version
        [none, some "var x=1;",
         some "bundleVersion: \x22a1b2c3d4e5\x22;"]).isSome = true ∧
    discover_bundle_version [some "var x=1;"] = none := by
  constructor
  · have h := (c4_discover_bundle_version
      [none, some "var x=1;", some "bundleVersion: \x22a1b2c3d4e5\x22;"]
      "a1b2c3d4e5").1 (by decide)
    obtain ⟨⟨hlen, _⟩, _⟩ := h
    decide
  · exact (c4_discover_bundle_version [some "var x=1;"] "").2.2 (by decide)

theorem bytesOfWord_length (w : ℕ) : (bytesOfWord w).length = 8 := rfl

theorem sha512Digest_length (st : Sha512State) :
    (sha512Digest st).length = 64 := by
  simp [sha512Digest, bytesOfWord]

theorem sha512_length (msg : List ℕ) : (sha512 msg).length = 64 := by
  unfold sha512
  exact sha512Digest_length _

theorem hmacSha512_length (key msg : List ℕ) :
    (hmacSha512 key msg).length = 64 := by
  unfold hmacSha512
  exact sha512_length _

theorem pbkdf2Iter_length (pw : List ℕ) :
    ∀ (k : ℕ) (cur acc : List ℕ), acc.length = 64 →
      (pbkdf2Iter pw k cur acc).length = 64 := by
  intro k
  induction k with
  | zero => intro cur acc hacc; exact hacc
  | succ k ih =>
    intro cur acc hacc
    unfold pbkdf2Iter
    apply ih
    unfold zipXor
    rw [List.length_zipWith, hacc, hmacSha512_length]
    exact min_self 64

theorem pbkdf2Block_length (pw salt : List ℕ) (c i : ℕ) :
    (pbkdf2Block pw salt c i).length = 64 := by
  unfold pbkdf2Block
  exact pbkdf2Iter_length pw (c - 1) _ _ (hmacSha512_length _ _)

theorem pbkdf2_dklen512 (pw salt : List ℕ) (c : ℕ) :
    (pbkdf2HmacSha512 pw salt c 512).length = 512 := by
  unfold pbkdf2HmacSha512
  rw [List.length_take, List.length_flatten]
  have hmap : ((List.range ((512 + 63) / 64)).map
      (fun i => pbkdf2Block pw salt c (i + 1))).map List.length =
      List.replicate ((512 + 63) / 64) 64 := by
    rw [List.map_map, List.eq_replicate_iff]
    refine ⟨by simp, ?_⟩
    intro b hb
    rw [List.mem_map] at hb
    obtain ⟨i, _, hbi⟩ := hb
    rw [← hbi]
    exact pbkdf2Block_length pw salt c (i + 1)
  rw [hmap, List.sum_replicate]
  norm_num

theorem hexChar_lower (n : ℕ) : isHexLower (hexChar n) = true := by
  have h : n % 16 < 16 := Nat.mod_lt _ (by norm_num)
  unfold hexChar
  set m := n % 16 with hm
  interval_cases m <;> decide

theorem bytesToHex_spec (bs : List ℕ) :
    (bytesToHex bs).length = 2 * bs.length ∧
    (bytesToHex bs).data.all isHexLower = true := by
  unfold bytesToHex
  constructor
  · show (bs.flatMap (fun b => [hexChar (b / 16), hexChar b])).length =
      2 * bs.length
    induction bs with
    | nil => rfl
    | cons b t ih =>
      rw [List.flatMap_cons, List.length_append, ih]
      simp only [List.length_cons, List.length_nil]
      omega
  · show (bs.flatMap (fun b => [hexChar (b / 16), hexChar b])).all
      isHexLower = true
    rw [List.all_eq_true]
    intro c hc
    rw [List.mem_flatMap] at hc
    obtain ⟨b, _, hcb⟩ := hc
    rcases List.mem_cons.mp hcb with rfl | h2
    · exact hexChar_lower _
    · rcases List.mem_cons.mp h2 with rfl | h3
      · exact hexChar_lower _
      · cases h3

/-- C8: the credential hasher Latin-1-encodes the password (failing on
any code point above 255), applies PBKDF2-HMAC-SHA512 with exactly
99999 iterations and a 512-byte derived key to those bytes and the
UTF-8 salt bytes, and returns the lowercase hex encoding (1024 hex
characters); when the encoding fails, the hashing step of async_login
aborts the login attempt with the authentication failure before any
credential request is sent. -/
theorem c8_pbkdf2_credential_hash (pw salt : String) :
    (pbkdf2_hash_hex pw salt = none ↔
      pw.data.all (fun c => c.toNat ≤ 255) = false) ∧
    (pw.data.all (fun c => c.toNat ≤ 255) = true →
      pbkdf2_hash_hex pw salt = some (bytesToHex (pbkdf2HmacSha512
        (pw.data.map Char.toNat) (utf8Bytes salt) 99999 512))) ∧
    (∀ hx, pbkdf2_hash_hex pw salt = some hx →
      hx.length = 1024 ∧ hx.data.all isHexLower = true) ∧
    (pbkdf2_hash_hex pw salt = none →
      async_login_hash_step pw salt =
        Except.error AuthFailure.encodingFailure) ∧
    (∀ hx, pbkdf2_hash_hex pw salt = some hx →
      async_login_hash_step pw salt = Except.ok hx) := by
  refine ⟨?_, ?_, ?_, ?_, ?_⟩
  · unfold pbkdf2_hash_hex latin1Encode
    cases hall : pw.data.all (fun c => c.toNat ≤ 255) with
    | true => simp [hall]
    | false => simp [hall]
  · intro h
    unfold pbkdf2_hash_hex latin1Encode
    simp [h]
  · intro hx hhx
    unfold pbkdf2_hash_hex latin1Encode at hhx
    split at hhx
    · simp at hhx
      subst hhx
      have hb := bytesToHex_spec (pbkdf2HmacSha512 (pw.data.map Char.toNat)
        (utf8Bytes salt) 99999 512)
      rw [pbkdf2_dklen512] at hb
      exact ⟨hb.1, hb.2⟩
    · simp at hhx
  · intro h
    unfold async_login_hash_step
    rw [h]
  · intro hx hhx
    unfold async_login_hash_step
    rw [hhx]

/-- C8 witness: a password containing the euro sign (U+20AC, outside
Latin-1) makes the hashing step abort with the authentication
failure. -/
theorem c8_pbkdf2_credential_hash_witness :
    async_login_hash_step "pw€" "salt" =
      Except.error AuthFailure.encodingFailure := by
  have h := c8_pbkdf2_credential_hash "pw€" "salt"
  exact h.2.2.2.1 (h.1.mpr (by decide))

end Schulmanager
